import Mathlib

set_option maxRecDepth 100000

/-!
Verification of the TubeWise transcript-chunking and summarization pipeline.

This file gives a shallow embedding of the text-processing core of the
TubeWise ai-service (chunker, generative/extractive summarizers, key-point
parsing, relevance scoring, transcript fetching, video comparison) and proves
or refutes the specified properties.

Conventions of the embedding:
- Python strings are embedded as `List Char` (named `Str`); Python string
  literals are converted with `str`.
- External collaborators (the OpenAI chat-completion endpoint, the YouTube
  transcript API, the sumy library) are modeled as explicit parameters:
  a completion call is an oracle `Nat → Except Unit Str` consumed at an
  increasing call index (an `Except.error` models a raised exception, an
  `Except.ok s` models a returned message content), and a transcript fetch
  is a single `Except Unit (List TSeg)` value.
- Retry loops that call `time.sleep(2)` also return the list of performed
  sleep durations, so that timing claims can be stated.
- Python float constants that only scale integer comparisons (`1.5`,
  `0.2`, `0.8`) are modeled as exact rationals; the comparisons involved
  are exact at these magnitudes, so no float rounding is observable.
- Recursion through the OpenAI summarizer (`summarize` ↔
  `summarize_long_text`) is modeled with an explicit fuel parameter
  mirroring the Python call stack; `none` models nontermination of the
  mutual recursion (a Python RecursionError).
-/

/-- Python strings are modeled as lists of characters. -/
abbrev Str := List Char

/-- Coercion from Lean string literals to the embedding type. -/
def str (s : String) : Str := s.data

/-- Characters treated as whitespace by Python `str.split()` / `str.strip()`
(for the ASCII inputs considered here). -/
def pyIsSpace (c : Char) : Bool :=
  c = ' ' || c = '\t' || c = '\n' || c = '\x0d' || c = '\x0b' || c = '\x0c'

/-- Worker for `pyWords`: `cur` is the (reversed) word being accumulated. -/
def wordsAux (cur : Str) : Str → List Str
  | [] => if cur = [] then [] else [cur.reverse]
  | c :: cs =>
    if pyIsSpace c then
      if cur = [] then wordsAux [] cs else cur.reverse :: wordsAux [] cs
    else wordsAux (c :: cur) cs

/-- Python `text.split()`: split on whitespace runs, dropping empty tokens. -/
def pyWords (cs : Str) : List Str := wordsAux [] cs

/-- Python `text.strip()`: drop leading and trailing whitespace. -/
def pyStrip (cs : Str) : Str :=
  ((cs.dropWhile pyIsSpace).reverse.dropWhile pyIsSpace).reverse

/-- Python `sep.join(parts)`. -/
def pyJoin (sep : Str) : List Str → Str
  | [] => []
  | [p] => p
  | p :: ps => p ++ sep ++ pyJoin sep ps

/-- Python `text.split(sep)` for a single-character separator, keeping empty
parts (e.g. `"a\n\nb".split("\n")`). -/
def pySplitChar (sep : Char) : Str → List Str
  | [] => [[]]
  | c :: cs =>
    if c = sep then [] :: pySplitChar sep cs
    else
      match pySplitChar sep cs with
      | [] => [[c]]
      | p :: ps => (c :: p) :: ps

/-- Python ASCII `str.lower()` on one character. -/
def pyLower (c : Char) : Char :=
  if 'A' ≤ c ∧ c ≤ 'Z' then Char.ofNat (c.toNat + 32) else c

/-- Decimal representation of a natural number, as used by Python f-strings. -/
def natStr (n : ℕ) : Str := (Nat.repr n).data

/-- Python `f"{n:02d}"`: zero-pad to two digits. -/
def pad2 (n : ℕ) : Str := if n < 10 then '0' :: natStr n else natStr n

/-- Python regex `\w` for ASCII inputs: letters, digits, underscore. -/
def pyIsWordChar (c : Char) : Bool := c.isAlphanum || c = '_'

/-- Lift a character predicate to an optional character (`none` = the
position before the start of the string, where a lookbehind cannot match). -/
def optIs (p : Char → Bool) : Option Char → Bool
  | some c => p c
  | none => false

/-! ### OpenAISummarizer: the Chunker (`_split_into_chunks` / `_combine_units`)

Source: src/tubewise-mcp/services/ai-service/openai_summarizer.py. -/

/-- Python `text.split('\n\n')`: split on each non-overlapping occurrence of
two consecutive newlines, keeping empty parts. -/
def split2NL : Str → List Str
  | [] => [[]]
  | '\n' :: '\n' :: rest => [] :: split2NL rest
  | c :: rest =>
    match split2NL rest with
    | [] => [[c]]
    | p :: ps => (c :: p) :: ps

/-- Match condition of the sentence-boundary regex
`(?<!\.\w.)(?<![A-Z][a-z]\.)(?<=\.|\?|\!)\s` at a whitespace character `c`
whose three preceding characters are `p3 p2 p1` (later = closer): the
character before must be `.`, `?` or `!`, and neither negative lookbehind
(`\.\w.` with `.` matching any non-newline, or `[A-Z][a-z]\.`) may match. -/
def splitHereOSS (p3 p2 p1 : Option Char) (c : Char) : Bool :=
  pyIsSpace c
  && (p1 = some '.' || p1 = some '?' || p1 = some '!')
  && !(p3 = some '.' && optIs pyIsWordChar p2 && optIs (fun x => x ≠ '\n') p1)
  && !(optIs Char.isUpper p3 && optIs Char.isLower p2 && p1 = some '.')

/-- Worker for `ossSentSplit`: scan the text left to right carrying the last
three characters of the original string (the lookbehind window) and the
current part accumulated in reverse. -/
def ossSentSplitAux (p3 p2 p1 : Option Char) (cur : Str) : Str → List Str
  | [] => [cur.reverse]
  | c :: cs =>
    if splitHereOSS p3 p2 p1 c then
      cur.reverse :: ossSentSplitAux p2 p1 (some c) [] cs
    else ossSentSplitAux p2 p1 (some c) (c :: cur) cs

/-- Python `re.split(r'(?<!\.\w.)(?<![A-Z][a-z]\.)(?<=\.|\?|\!)\s', text)`:
the sentence split used by `_split_into_chunks` and `_simple_summarize`. -/
def ossSentSplit (cs : Str) : List Str := ossSentSplitAux none none none [] cs

/-- Unit selection of `_split_into_chunks`: split on double newlines into
paragraphs; if fewer than 3 paragraphs result, split into sentences. -/
def split_units (text : Str) : List Str :=
  let paragraphs := split2NL text
  if paragraphs.length < 3 then ossSentSplit text else paragraphs

/-- Greedy packing loop of `_combine_units`, returning each chunk as the list
of its units (`cur` is the current chunk in reverse, `curSize` its word
count, mirroring `current_chunk` / `current_size`). -/
def combineAux (chunkSize : ℕ) (cur : List Str) (curSize : ℕ) :
    List Str → List (List Str)
  | [] => if cur = [] then [] else [cur.reverse]
  | u :: us =>
    let usz := (pyWords u).length
    if curSize + usz ≤ chunkSize then
      combineAux chunkSize (u :: cur) (curSize + usz) us
    else if cur = [] then combineAux chunkSize [u] usz us
    else cur.reverse :: combineAux chunkSize [u] usz us

/-- `OpenAISummarizer._combine_units(units, chunk_size)`: greedily pack units
into chunks of at most `chunk_size` words, joining each chunk with spaces. -/
def combine_units (units : List Str) (chunkSize : ℕ) : List Str :=
  (combineAux chunkSize [] 0 units).map (pyJoin [' '])

/-- `OpenAISummarizer._split_into_chunks(text, chunk_size)`. -/
def split_into_chunks (text : Str) (chunkSize : ℕ) : List Str :=
  combine_units (split_units text) chunkSize

/-! ### OpenAISummarizer: extractive fallback `_simple_summarize` -/

/-- Stable descending insertion by the rational key (second component);
equal keys keep their original relative order, matching the stability of
Python `sorted(..., reverse=True)` and `heapq.nlargest`. -/
def insertDescQ {α : Type} (x : α × ℚ) : List (α × ℚ) → List (α × ℚ)
  | [] => [x]
  | y :: ys => if y.2 < x.2 then x :: y :: ys else y :: insertDescQ x ys

/-- Stable descending sort by the rational key. -/
def sortDescQ {α : Type} (l : List (α × ℚ)) : List (α × ℚ) :=
  l.foldl (fun acc x => insertDescQ x acc) []

/-- Stable ascending insertion for natural numbers (Python `list.sort()`). -/
def insertAscN (x : ℕ) : List ℕ → List ℕ
  | [] => [x]
  | y :: ys => if x < y then x :: y :: ys else y :: insertAscN x ys

/-- Stable ascending sort for natural numbers. -/
def sortAscN (l : List ℕ) : List ℕ :=
  l.foldl (fun acc x => insertAscN x acc) []

/-- Selection loop of `_simple_summarize`: walk sentences in importance
order, keeping each while the word budget is not exceeded, stopping at the
first overflow (the Python loop uses `break`, not `continue`). -/
def ossSelect (maxWords : ℕ) (sentences : List Str) :
    List (ℕ × ℚ) → ℕ → List ℕ
  | [], _ => []
  | (i, _) :: rest, wc =>
    let sw := (pyWords (sentences.getD i [])).length
    if wc + sw ≤ maxWords then i :: ossSelect maxWords sentences rest (wc + sw)
    else []

/-- `OpenAISummarizer._simple_summarize(text, max_words)`: position/length
weighted extractive fallback.  The float weights 2.0, 1.5, 0.2, 0.8 and the
division by 20 are modeled as exact rationals. -/
def ossSimpleSummarize (text : Str) (maxWords : ℕ) : Str :=
  let sentences := ossSentSplit text
  if sentences.length ≤ 3 then text
  else
    let n := sentences.length
    let importance : ℕ → ℚ := fun i =>
      let pos : ℚ :=
        if (i : ℚ) < (n : ℚ) * (1 / 5) then 2
        else if (n : ℚ) * (4 / 5) < (i : ℚ) then 3 / 2
        else 1
      let lenImp : ℚ :=
        min 1 (((pyWords (sentences.getD i [])).length : ℚ) / 20)
      pos * lenImp
    let sorted := sortDescQ ((List.range n).map (fun i => (i, importance i)))
    let selected := sortAscN (ossSelect maxWords sentences sorted 0)
    pyJoin [' '] (selected.map (fun i => sentences.getD i []))

/-! ### OpenAISummarizer: generative path `summarize` / `summarize_long_text`

The completion endpoint is an oracle consumed at call index `k`.  `min_length`
is threaded through the Python code but never influences behavior, so it is
omitted. -/

/-- Retry loop of `OpenAISummarizer.summarize`: up to `r` attempts; an
attempt succeeds when the stripped response has more than 50 characters;
an exception or a short response moves to the next attempt.  Returns the
accepted summary (if any) and the next call index. -/
def ossAttempts (oracle : ℕ → Except Unit Str) : ℕ → ℕ → Option Str × ℕ
  | 0, k => (none, k)
  | r + 1, k =>
    match oracle k with
    | .ok s =>
      let t := pyStrip s
      if 50 < t.length then (some t, k + 1) else ossAttempts oracle r (k + 1)
    | .error _ => ossAttempts oracle r (k + 1)

/-- Chunk loop of `summarize_long_text`: summarize the chunks in order with
the supplied chunk summarizer, threading the call index; `none` propagates
fuel exhaustion. -/
def ossChunkFold (f : ℕ → Str → Option (Str × ℕ)) (k : ℕ) :
    List Str → Option (List Str × ℕ)
  | [] => some ([], k)
  | c :: cs =>
    match f k c with
    | none => none
    | some (s, k1) =>
      match ossChunkFold f k1 cs with
      | none => none
      | some (rest, k2) => some (s :: rest, k2)

/-- Labeled concatenation of chunk summaries:
`"\n\n".join(f"Part {i+1}: {summary}")`. -/
def ossCombine (summaries : List Str) : Str :=
  pyJoin [.ofNat 10, .ofNat 10]
    (summaries.enum.map (fun p => str "Part " ++ natStr (p.1 + 1) ++ str ": " ++ p.2))

/-- Body of `OpenAISummarizer.summarize_long_text` given a chunk summarizer
`f`: split into chunks of 4000 words, summarize each, join with "Part N:"
labels; only if the labeled concatenation exceeds `max_length * 1.5` words
is one final completion request issued (its stripped content is returned on
success, the space-joined chunk summaries on exception). -/
def ossSummarizeLongG (f : ℕ → Str → Option (Str × ℕ))
    (oracle : ℕ → Except Unit Str) (k : ℕ) (text : Str) (maxLength : ℕ) :
    Option (Str × ℕ) :=
  let chunks := split_into_chunks text 4000
  match ossChunkFold f k chunks with
  | none => none
  | some (summaries, k1) =>
    let combined := ossCombine summaries
    if 3 * maxLength < 2 * (pyWords combined).length then
      match oracle k1 with
      | .ok s => some (pyStrip s, k1 + 1)
      | .error _ => some (pyJoin [' '] summaries, k1 + 1)
    else some (combined, k1)

/-- `OpenAISummarizer.summarize(text, max_length)`: pass very short texts
through unchanged, divert texts over 4000 words to `summarize_long_text`
(which re-enters `summarize` per chunk — hence the fuel), otherwise attempt
up to 3 completions and fall back to `_simple_summarize`. -/
def ossSummarize : ℕ → (ℕ → Except Unit Str) → ℕ → Str → ℕ → Option (Str × ℕ)
  | 0, _, _, _, _ => none
  | fuel + 1, oracle, k, text, maxLength =>
    if text = [] ∨ (pyWords text).length < 100 then some (text, k)
    else if 4000 < (pyWords text).length then
      ossSummarizeLongG (fun k2 c => ossSummarize fuel oracle k2 c (maxLength / 2))
        oracle k text maxLength
    else
      match ossAttempts oracle 3 k with
      | (some s, k1) => some (s, k1)
      | (none, k1) => some (ossSimpleSummarize text maxLength, k1)

/-- Per-chunk summary value in the success scenario of `summarize_long_text`
(each completion call returns `S`): chunks that are empty or under 100 words
pass through unchanged, the others summarize to `S`. -/
def ossChunkValue (S : Str) (c : Str) : Str :=
  if c = [] ∨ (pyWords c).length < 100 then c else S

/-- Number of completion calls consumed by the chunk loop in the success
scenario: one per chunk that actually reaches the API. -/
def ossBigCount (chunks : List Str) : ℕ :=
  chunks.countP (fun c => !(c = [] ∨ (pyWords c).length < 100 : Bool))

/-- Chunk summaries produced by `summarize_long_text` when every completion
call answers `S`. -/
def ossScenarioSums (S text : Str) : List Str :=
  (split_into_chunks text 4000).map (ossChunkValue S)

/-- Labeled concatenation of the chunk summaries in the success scenario. -/
def ossScenarioCombined (S text : Str) : Str :=
  ossCombine (ossScenarioSums S text)

/-! ### ImprovedSummaryAgent (improved_summary_agent.py) -/

/-- Retry loop of the short-transcript path of
`ImprovedSummaryAgent.generate_openai_summary` (and of its final-summary
loop): up to `r` attempts, accepting a stripped response of more than 100
characters.  A `time.sleep(2)` happens only in the exception handler and
only when the failed attempt is not the last one; a too-short response
retries immediately.  Returns (result, sleep trace, next call index). -/
def iaAttempts (oracle : ℕ → Except Unit Str) :
    ℕ → ℕ → Option Str × List ℕ × ℕ
  | 0, k => (none, [], k)
  | r + 1, k =>
    match oracle k with
    | .ok s =>
      let t := pyStrip s
      if 100 < t.length then (some t, [], k + 1) else iaAttempts oracle r (k + 1)
    | .error _ =>
      let rest := iaAttempts oracle r (k + 1)
      if 0 < r then (rest.1, 2 :: rest.2.1, rest.2.2) else rest

/-- Property of one completion outcome making the retry loop move on: the
call raised, or its stripped content has at most 100 characters. -/
def iaFailedAttempt (r : Except Unit Str) : Prop :=
  match r with
  | .error _ => True
  | .ok s => (pyStrip s).length ≤ 100

/-- `ImprovedSummaryAgent.generate_openai_summary(transcript)`: return `None`
when no API key is configured, pass transcripts under 200 words through
unchanged, divert transcripts over 12000 characters to the chunked path, and
otherwise run the 3-attempt completion loop, returning `None` when it is
exhausted.  The chunked path (fixed 12000-character slices, per-chunk and
final retry loops, sumy-based fallback) is abstracted as the parameter
`longPath`, which none of the verified claims reach. -/
def iaGenerateOpenAISummary (apiKey : Bool) (oracle : ℕ → Except Unit Str)
    (longPath : Str → Option Str × List ℕ × ℕ) (transcript : Str) :
    Option Str × List ℕ × ℕ :=
  if !apiKey then (none, [], 0)
  else if (pyWords transcript).length < 200 then (some transcript, [], 0)
  else if 12000 < transcript.length then longPath transcript
  else iaAttempts oracle 3 0

/-- `ImprovedSummaryAgent.generate_fallback_summary(transcript)`: pass
transcripts under 200 words through unchanged; otherwise run LexRank (an
external sumy call, abstracted as `lexrank`, `none` modeling its internal
failure) and fall back to `simple_summarize` (abstracted as `simple`) when
the LexRank result is missing or under 100 characters. -/
def iaGenerateFallbackSummary (lexrank : Str → Option Str)
    (simple : Str → Str) (transcript : Str) : Str :=
  if (pyWords transcript).length < 200 then transcript
  else
    match lexrank transcript with
    | some s => if s = [] ∨ s.length < 100 then simple transcript else s
    | none => simple transcript

/-- Summary-text portion of `ImprovedSummaryAgent.process`: truncate very
long transcripts to 15000 words, try the OpenAI summary, and fall back when
it returns `None` or an empty (falsy) string. -/
def iaProcessSummary (apiKey : Bool) (oracle : ℕ → Except Unit Str)
    (longPath : Str → Option Str × List ℕ × ℕ) (lexrank : Str → Option Str)
    (simple : Str → Str) (transcript : Str) : Str :=
  let processed :=
    if 15000 < (pyWords transcript).length then
      pyJoin [' '] ((pyWords transcript).take 15000)
    else transcript
  match (iaGenerateOpenAISummary apiKey oracle longPath processed).1 with
  | none => iaGenerateFallbackSummary lexrank simple processed
  | some t =>
    if t = [] then iaGenerateFallbackSummary lexrank simple processed else t

/-! ### ImprovedSummaryAgent: key-point parsing (`extract_key_points_with_openai`) -/

/-- Attempt to match the regex `\[(\d+:?\d*)\]` at the start of the string,
returning the captured group.  After the maximal run of digits (and an
optional colon followed by a maximal run of digits) a closing bracket must
follow; no other backtracking of this pattern can succeed. -/
def tsMatchAt : Str → Option Str
  | '[' :: rest =>
    let d1 := rest.takeWhile Char.isDigit
    if d1 = [] then none
    else
      match rest.drop d1.length with
      | ':' :: r2 =>
        let d2 := r2.takeWhile Char.isDigit
        if (r2.drop d2.length).head? = some ']' then some (d1 ++ ':' :: d2)
        else none
      | r1 => if r1.head? = some ']' then some d1 else none
  | _ => none

/-- Python `re.search(r'\[(\d+:?\d*)\]', line)`: leftmost match. -/
def tsSearch : Str → Option Str
  | [] => none
  | c :: cs =>
    match tsMatchAt (c :: cs) with
    | some t => some t
    | none => tsSearch cs

/-- Key-point parsing loop of
`ImprovedSummaryAgent.extract_key_points_with_openai`: for each line, strip
it, skip empty lines, search for a bracketed timestamp, normalize a
colon-less timestamp by appending ":00", and take the stripped text after
the first `]` as the point, keeping it only when non-empty. -/
def iaParseLines : List Str → List (Str × Str)
  | [] => []
  | l :: ls =>
    let line := pyStrip l
    if line = [] then iaParseLines ls
    else
      match tsSearch line with
      | none => iaParseLines ls
      | some ts =>
        let ts2 := if ':' ∈ ts then ts else ts ++ str ":00"
        let ptext :=
          match line.findIdx? (· = ']') with
          | some i => pyStrip (line.drop (i + 1))
          | none => pyStrip line
        if ptext = [] then iaParseLines ls else (ts2, ptext) :: iaParseLines ls

/-- Key-point parsing step applied to a model response (split on newlines). -/
def iaParseKeyPoints (resp : Str) : List (Str × Str) :=
  iaParseLines (pySplitChar '\n' resp)

/-! ### SimpleApp (simple_app.py): frequency-strategy summarizer -/

/-- Python `string.punctuation` (ASCII codes 33–47, 58–64, 91–96, 123–126). -/
def pyPunct : Str :=
  ([33, 34, 35, 36, 37, 38, 39, 40, 41, 42, 43, 44, 45, 46, 47,
    58, 59, 60, 61, 62, 63, 64, 91, 92, 93, 94, 95, 96,
    123, 124, 125, 126].map Char.ofNat)

/-- Stop-word list of `SummaryAgent._simple_summarize` (simple_app.py). -/
def saStopWords : List Str :=
  [str "the", str "a", str "an", str "and", str "or", str "but", str "in",
   str "on", str "at", str "to", str "for", str "with", str "by",
   str "about", str "as", str "into", str "like", str "through",
   str "after", str "over", str "between", str "out", str "against",
   str "during", str "without", str "is", str "are", str "was", str "were",
   str "be", str "been", str "being", str "have", str "has", str "had",
   str "do", str "does", str "did", str "this", str "that", str "these",
   str "those", str "it", str "they", str "them", str "their", str "what",
   str "which", str "who", str "whom", str "whose", str "when", str "where",
   str "why", str "how", str "all", str "any", str "both", str "each",
   str "few", str "more", str "most", str "some", str "such", str "no",
   str "nor", str "not", str "only", str "own", str "same", str "so",
   str "than", str "too", str "very"]

/-- Python `collections.Counter` over a token list, as an insertion-ordered
association list. -/
def counterAdd (m : List (Str × ℕ)) (w : Str) : List (Str × ℕ) :=
  if m.any (fun p => p.1 = w) then
    m.map (fun p => if p.1 = w then (p.1, p.2 + 1) else p)
  else m ++ [(w, 1)]

/-- Counter of a token list. -/
def counterOf (ws : List Str) : List (Str × ℕ) := ws.foldl counterAdd []

/-- Dict lookup. -/
def lookupQ (m : List (Str × ℚ)) (w : Str) : Option ℚ :=
  (m.find? (fun p => p.1 = w)).map (fun p => p.2)

/-- Python `d[k] = d.get(k, 0) + v` keeping insertion order. -/
def scoreAdd (m : List (Str × ℚ)) (s : Str) (v : ℚ) : List (Str × ℚ) :=
  if m.any (fun p => p.1 = s) then
    m.map (fun p => if p.1 = s then (p.1, p.2 + v) else p)
  else m ++ [(s, v)]

/-- Python `re.split(r'[.!?]', text)`: split at every `.`, `!` or `?`,
keeping empty parts. -/
def splitPunct : Str → List Str
  | [] => [[]]
  | c :: cs =>
    if c = '.' ∨ c = '!' ∨ c = '?' then [] :: splitPunct cs
    else
      match splitPunct cs with
      | [] => [[c]]
      | p :: ps => (c :: p) :: ps

/-- Sentence list of `_simple_summarize`:
`[s.strip() for s in re.split(r'[.!?]', text) if s.strip()]`. -/
def saSentences (text : Str) : List Str :=
  ((splitPunct text).map pyStrip).filter (fun s => s ≠ [])

/-- Per-sentence scoring step of `_simple_summarize`: sentences of fewer
than 4 words are skipped; every word of the lowercased sentence that is a
key of the normalized frequency table adds its frequency to the sentence
score. -/
def saScoreSentence (wf : List (Str × ℚ)) (m : List (Str × ℚ)) (s : Str) :
    List (Str × ℚ) :=
  if (pyWords s).length < 4 then m
  else
    (pyWords (s.map pyLower)).foldl
      (fun acc w =>
        match lookupQ wf w with
        | some v => scoreAdd acc s v
        | none => acc) m

/-- Last-resort truncation `text[:500] + "..." if len(text) > 500 else text`. -/
def saTruncate (t : Str) : Str :=
  if 500 < t.length then t.take 500 ++ str "..." else t

/-- Python `summary.endswith(".") / ("!") / ("?")`. -/
def endsWithPunct (s : Str) : Bool :=
  match s.getLast? with
  | some c => c = '.' || c = '!' || c = '?'
  | none => false

/-- Normalized word-frequency table of `_simple_summarize`: lowercase,
replace punctuation by spaces, count words, delete stop words, divide by
the maximum remaining frequency (1 when the table is empty). -/
def saWordFreqs (text : Str) : List (Str × ℚ) :=
  let tfa := (text.map pyLower).map (fun c => if c ∈ pyPunct then ' ' else c)
  let wf1 := (counterOf (pyWords tfa)).filter (fun p => ¬ p.1 ∈ saStopWords)
  let maxf : ℕ := if wf1 = [] then 1 else (wf1.map (fun p => p.2)).foldl max 0
  wf1.map (fun p => (p.1, (p.2 : ℚ) / (maxf : ℚ)))

/-- Sentence-score table of `_simple_summarize` (insertion-ordered dict). -/
def saScores (text : Str) : List (Str × ℚ) :=
  (saSentences text).foldl (saScoreSentence (saWordFreqs text)) []

/-- Top `count` sentences by score (`heapq.nlargest(count, scores, key)` =
stable descending sort, then take). -/
def saTop (text : Str) (count : ℕ) : List Str :=
  ((sortDescQ (saScores text)).take count).map (fun p => p.1)

/-- `SummaryAgent._simple_summarize(text, sentences_count)` (simple_app.py):
word-frequency extractive summarizer.  Lowercase, replace punctuation by
spaces, count words, delete stop words, normalize counts by the maximum
frequency, score sentences of at least 4 words by the sum of their words'
normalized frequencies, take the `count` top-scoring sentences and join
with ". ", appending a final period when the result does not already end in
sentence punctuation; fall back to the 500-character truncation when the
text is empty or too short or no sentence received a score. -/
def saSimpleSummarize (text : Str) (count : ℕ) : Str :=
  if text = [] ∨ (pyWords text).length < count * 2 then saTruncate text
  else if saScores text = [] then saTruncate text
  else
    let summary := pyJoin (str ". ") (saTop text count)
    if endsWithPunct summary then summary else summary ++ ['.']

/-! ### SimpleApp: `extract_video_id` -/

/-- Character class `[0-9A-Za-z_-]` of the video-id patterns. -/
def vidChar (c : Char) : Bool := c.isAlphanum || c = '_' || c = '-'

/-- Capture group `([0-9A-Za-z_-]{11})` anchored at the given position. -/
def take11 (cs : Str) : Option Str :=
  if (cs.take 11).length = 11 ∧ (cs.take 11).all vidChar then some (cs.take 11)
  else none

/-- Prefix test for literal patterns. -/
def strStarts : Str → Str → Bool
  | [], _ => true
  | _ :: _, [] => false
  | a :: as, b :: bs => a = b && strStarts as bs

/-- Python `re.search(r'(?:v=|\/)([0-9A-Za-z_-]{11}).*', url)`: at each
position try the alternatives "v=" then "/", then the 11-character group
(the trailing `.*` always matches). -/
def scanVEq : Str → Option Str
  | [] => none
  | c :: cs =>
    if c = 'v' ∧ cs.head? = some '=' then
      match take11 (cs.drop 1) with
      | some t => some t
      | none => scanVEq cs
    else if c = '/' then
      match take11 cs with
      | some t => some t
      | none => scanVEq cs
    else scanVEq cs

/-- Python `re.search` for a literal prefix followed by the 11-character
group (patterns `youtu\.be\/...` and `shorts\/...`). -/
def scanLit (lit : Str) : Str → Option Str
  | [] => none
  | c :: cs =>
    if strStarts lit (c :: cs) then
      match take11 ((c :: cs).drop lit.length) with
      | some t => some t
      | none => scanLit lit cs
    else scanLit lit cs

/-- Python `re.search(r'^([0-9A-Za-z_-]{11})$', url)` (`$` also matches just
before a single trailing newline). -/
def matchWhole11 (url : Str) : Option Str :=
  if (url.take 11).length = 11 ∧ (url.take 11).all vidChar ∧
      (url.length = 11 ∨ (url.length = 12 ∧ url.getLast? = some '\n')) then
    some (url.take 11)
  else none

/-- `extract_video_id(url)` (simple_app.py): try the four patterns in order
and return the first capture. -/
def extract_video_id (url : Str) : Option Str :=
  match scanVEq url with
  | some t => some t
  | none =>
    match scanLit (str "youtu.be/") url with
    | some t => some t
    | none =>
      match scanLit (str "shorts/") url with
      | some t => some t
      | none => matchWhole11 url

/-! ### OpenAISummarizer: key-point parsing (`extract_key_points`) -/

/-- Python `re.sub(r'^\d+\.\s*', '', line)`: remove a leading run of
digits followed by a literal dot and any whitespace; leave the line
unchanged when that prefix is absent (a shorter digit run cannot make the
dot match, so the maximal-munch reading is exact). -/
def ossStripNumbering (line : Str) : Str :=
  let d := line.takeWhile Char.isDigit
  if d ≠ [] ∧ (line.drop d.length).head? = some '.' then
    ((line.drop d.length).drop 1).dropWhile pyIsSpace
  else line

/-- Match of `(.+)` after a backtrackable `\s*` whose maximal run is `ws`
and whose remainder is `rest`: greedily take the non-newline prefix of
`rest` when it is nonempty (its head cannot be whitespace, `ws` being
maximal); otherwise backtrack into `ws` and capture its last non-newline
character (everything after it in `ws` is a newline, which `.` cannot
match). -/
def ossDotPlus (ws rest : Str) : Option Str :=
  if rest ≠ [] then some (rest.takeWhile (fun c => c ≠ '\n'))
  else
    match ws.reverse.dropWhile (fun c => c = '\n') with
    | [] => none
    | c :: _ => some [c]

/-- Python `re.match(r'([0-9]+:[0-9]+)\s*-\s*(.+)', line)`: an anchored
"mm:ss - text" pattern.  Both digit runs are maximal (shrinking one only
exposes another digit, never the required `:` or `-`), as is the
whitespace before `-`; only the `\s*` before `(.+)` can backtrack. -/
def ossMatchTimePoint (line : Str) : Option (Str × Str) :=
  let d1 := line.takeWhile Char.isDigit
  if d1 = [] then none
  else
    match line.drop d1.length with
    | ':' :: r1 =>
      let d2 := r1.takeWhile Char.isDigit
      if d2 = [] then none
      else
        let r2 := r1.drop d2.length
        let ws := r2.takeWhile pyIsSpace
        match r2.drop ws.length with
        | '-' :: r3 =>
          let ws2 := r3.takeWhile pyIsSpace
          match ossDotPlus ws2 (r3.drop ws2.length) with
          | some pt => some (d1 ++ ':' :: d2, pt)
          | none => none
        | _ => none
    | _ => none

/-- Key-point parsing loop of `OpenAISummarizer.extract_key_points`
(openai_summarizer.py lines 191-207): strip each line, skip empty lines
and lines starting with "#" or "KEY POINTS", remove a leading "N. "
numbering, and keep the line only when it matches "mm:ss - text",
recording the timestamp and the stripped text. -/
def ossParseLines : List Str → List (Str × Str)
  | [] => []
  | l :: ls =>
    let line := pyStrip l
    if line = [] ∨ strStarts (str "#") line ∨ strStarts (str "KEY POINTS") line then
      ossParseLines ls
    else
      match ossMatchTimePoint (ossStripNumbering line) with
      | none => ossParseLines ls
      | some (ts, pt) => (ts, pyStrip pt) :: ossParseLines ls

/-- Key-point parsing step of `OpenAISummarizer.extract_key_points`
applied to a model response (split on newlines). -/
def oss_extract_key_points_parse (resp : Str) : List (Str × Str) :=
  ossParseLines (pySplitChar '\n' resp)

/-! ### api_server.py: transcript fetch and relevance -/

/-- Raw transcript segment returned by the YouTube transcript API
(`{'start': float, 'text': str}`); the float offset is modeled as a
rational. -/
structure TSeg where
  start : ℚ
  text : Str
deriving DecidableEq

/-- Formatting of one segment by `get_transcript`:
`f"{hours}:{minutes:02d}:{seconds:02d}"` from the float start offset
(offsets are nonnegative in practice, where Python floor division and
`int()` truncation agree with the rational floor). -/
def apiFormatSeg (s : TSeg) : Str × Str :=
  let hours := Int.toNat ⌊s.start / 3600⌋
  let minutes := Int.toNat ⌊(s.start - 3600 * ⌊s.start / 3600⌋) / 60⌋
  let seconds := Int.toNat ⌊s.start - 60 * ⌊s.start / 60⌋⌋
  (natStr hours ++ ':' :: pad2 minutes ++ ':' :: pad2 seconds, s.text)

/-- Fixed placeholder transcript of `generate_mock_transcript(video_id)`
(independent of the video id). -/
def apiMockTranscript : List (Str × Str) :=
  [(str "0:00:00", str "Hello and welcome to this video."),
   (str "0:00:05", str "Today we will be discussing an important topic."),
   (str "0:00:10", str "This is a key point that you should remember."),
   (str "0:00:15", str "Another important concept to understand."),
   (str "0:00:20", str "Let me explain this in more detail."),
   (str "0:00:25", str "This is how you can apply this knowledge."),
   (str "0:00:30", str "Let's summarize what we've learned."),
   (str "0:00:35", str "Thank you for watching this video."),
   (str "0:00:40", str "Don't forget to like and subscribe."),
   (str "0:00:45", str "See you in the next video!")]

/-- `get_transcript(video_id)` (api_server.py): when the YouTube API client
is importable and the fetch succeeds, format the segments; on any fetch
exception, or when the client is unavailable, return the fixed mock
transcript instead of raising. -/
def apiGetTranscript (youtubeAvailable : Bool)
    (fetch : Except Unit (List TSeg)) : List (Str × Str) :=
  if youtubeAvailable then
    match fetch with
    | .ok segs => segs.map apiFormatSeg
    | .error _ => apiMockTranscript
  else apiMockTranscript

/-- `calculate_relevance(text, keywords)` (api_server.py): 0 for an empty
keyword list, otherwise the fraction of keywords occurring as substrings of
the text. -/
def calculate_relevance (text : Str) (keywords : List Str) : ℚ :=
  if keywords = [] then 0
  else (keywords.countP (fun k => decide (k <:+: text)) : ℚ) / (keywords.length : ℚ)

/-! ### ImprovedTranscriptAgent (improved_transcript_agent.py) -/

/-- `ImprovedTranscriptAgent.process(video_id)`: join the fetched segment
texts with spaces; on a fetch exception, raise `HTTPException(404)`
(modeled as `Except.error 404`). -/
def itaProcess (fetch : Except Unit (List TSeg)) : Except ℕ Str :=
  match fetch with
  | .ok segs => .ok (pyJoin [' '] (segs.map (fun s => s.text)))
  | .error _ => .error 404

/-! ### VideoComparisonService (video_comparison.py) -/

/-- Key point record. -/
structure VCKeyPoint where
  timestamp : Str
  point : Str
deriving DecidableEq

/-- Summary record handed to the comparison service. -/
structure VCSummary where
  videoId : Str
  title : Str
  summary : Str
  keyPoints : List VCKeyPoint
deriving DecidableEq

/-- Comparison result record. -/
structure VCComparisonResult where
  commonTopics : List Str
  differences : List Str
  recommendation : Str
deriving DecidableEq

/-- Title extraction of `_generate_fallback_comparison`: a falsy (empty)
title falls through to the video id, then to the positional default. -/
def vcExtractTitle (i : ℕ) (s : VCSummary) : Str :=
  if s.title ≠ [] then s.title
  else if s.videoId ≠ [] then str "YouTube Video " ++ s.videoId
  else str "Video " ++ natStr (i + 1)

/-- `VideoComparisonService._generate_fallback_comparison(summaries)`:
templated comparison built from the extracted titles only. -/
def vcFallbackComparison (summaries : List VCSummary) : VCComparisonResult :=
  let titles := summaries.enum.map (fun p => vcExtractTitle p.1 p.2)
  let t0 := titles.getD 0 []
  let t1 := titles.getD 1 []
  { commonTopics :=
      [str "Both videos discuss related topics",
       str "They share educational content"]
    differences :=
      [if 1 < titles.length then
         t0 ++ str " focuses more on theory, while " ++ t1 ++ str " is more practical"
       else str "Videos have different approaches",
       if 1 < titles.length then
         t0 ++ str " is more detailed in some areas, while " ++ t1 ++ str " covers additional points"
       else str "Videos cover different aspects of the topic"]
    recommendation :=
      if 1 < titles.length then
        str "Watch " ++ t0 ++ str " first for background, then " ++ t1 ++ str " for practical applications."
      else str "Watch videos in any order based on your interest." }

/-- `VideoComparisonService.compare_videos(summaries)`: an empty input makes
the initial logging raise (caught by the outer handler → fallback); without
an API key the fallback is used directly; otherwise the completion call and
the JSON parse of its content are modeled together as `apiResult` (`none` =
API exception or parse failure → fallback, `some` = the parsed object, read
with `.get(key, default)`). -/
def vcCompareVideos (apiKey : Bool)
    (apiResult : Option (List Str × List Str × Str))
    (summaries : List VCSummary) : VCComparisonResult :=
  if summaries = [] then vcFallbackComparison summaries
  else if !apiKey then vcFallbackComparison summaries
  else
    match apiResult with
    | some r => { commonTopics := r.1, differences := r.2.1, recommendation := r.2.2 }
    | none => vcFallbackComparison summaries

/-! ### Auxiliary notions used in theorem statements -/

/-- Total word count of a chunk given as a list of units. -/
def wsum (cl : List Str) : ℕ := (cl.map (fun u => (pyWords u).length)).sum

/-- Oracle that behaves like `oracle` on the first `n` calls and raises on
every later call (used to exercise the failure of the final synthesis
request of `summarize_long_text`). -/
def oracleFailFrom (oracle : ℕ → Except Unit Str) (n : ℕ) :
    ℕ → Except Unit Str :=
  fun j => if j < n then oracle j else .error ()

/-! ### Concrete inputs used by counterexamples and witnesses -/

/-- Chunk-summary content returned by the success oracle in the C2
scenario: 62 characters, no surrounding whitespace. -/
def sC2 : Str := str "This is a successful summary with more than fifty characters."

/-- One sentence unit of the long C2 input. -/
def unitC2 : Str := str "w w."

/-- Family of long inputs: n copies of "w w. " followed by a final "w w.",
i.e. n+1 two-word sentences. -/
def textN (n : ℕ) : Str := (List.replicate n (str "w w. ")).flatten ++ str "w w."

/-- A 4002-word input text: 2001 two-word sentences, 10004 characters. -/
def textC2 : Str := textN 2000

/-- Oracle whose every completion call succeeds with `sC2`. -/
def oracleC2 : ℕ → Except Unit Str := fun _ => .ok sC2

/-- First chunk produced for `textC2` with the 4000-word bound:
2000 sentences joined with spaces. -/
def chunk1C2 : Str := pyJoin [' '] (List.replicate 2000 unitC2)

/-- Labeled concatenation actually returned by `summarize_long_text` on
`textC2` under the success oracle. -/
def combinedC2 : Str :=
  str "Part 1: " ++ sC2 ++ '\n' :: '\n' :: str "Part 2: w w."

/-- C3 input: a 200-word transcript (400 characters), long enough to pass
the 200-word pass-through guard and short enough for the short-text path. -/
def textC3 : Str := (List.replicate 200 (str "w ")).flatten

/-- C6 input: 21 copies of a five-word sentence made entirely of stop
words; 504 characters, 105 words, 21 sentences of 5 words each. -/
def textC6 : Str := (List.replicate 21 (str "the and with that this. ")).flatten

/-- Two summaries with the spec's scenario-B titles. -/
def summariesC9 : List VCSummary :=
  [{ videoId := str "vid1", title := str "Intro to X", summary := str "s1",
     keyPoints := [] },
   { videoId := str "vid2", title := str "Advanced X", summary := str "s2",
     keyPoints := [] }]

/-! ## Theorems

First the library of facts about the Python word/split primitives, then the
claims. -/

/-- Splitting at a whitespace character splits the word list. -/
theorem wordsAux_append_space (c : Char) (hc : pyIsSpace c = true) :
    ∀ (xs : Str) (cur : Str) (ys : Str),
      wordsAux cur (xs ++ c :: ys) = wordsAux cur xs ++ wordsAux [] ys := by
  intro xs
  induction xs with
  | nil =>
    intro cur ys
    by_cases h : cur = [] <;> simp [wordsAux, hc, h]
  | cons x xs ih =>
    intro cur ys
    by_cases hx : pyIsSpace x
    · by_cases h : cur = [] <;> simp [wordsAux, hx, h, ih]
    · simp [wordsAux, hx, ih]

/-- Leading whitespace does not change the word list. -/
theorem pyWords_cons_space (c : Char) (hc : pyIsSpace c = true) (ys : Str) :
    pyWords (c :: ys) = pyWords ys := by
  simp [pyWords, wordsAux, hc]

/-- A prefix of whitespace does not change the word list. -/
theorem pyWords_space_prefix (sep : Str) (hsep : ∀ c ∈ sep, pyIsSpace c)
    (ys : Str) : pyWords (sep ++ ys) = pyWords ys := by
  induction sep with
  | nil => rfl
  | cons c cs ih =>
    have hc := hsep c (by simp)
    have ih2 := ih (fun d hd => hsep d (by simp [hd]))
    simpa [pyWords_cons_space c hc] using ih2

/-- Splitting at a nonempty all-whitespace separator splits the word list. -/
theorem pyWords_append_sep (sep : Str) (hne : sep ≠ [])
    (hsep : ∀ c ∈ sep, pyIsSpace c) (xs ys : Str) :
    pyWords (xs ++ sep ++ ys) = pyWords xs ++ pyWords ys := by
  cases sep with
  | nil => exact absurd rfl hne
  | cons c cs =>
    have hc := hsep c (by simp)
    have h1 : xs ++ (c :: cs) ++ ys = xs ++ c :: (cs ++ ys) := by simp
    rw [h1, show pyWords xs = wordsAux [] xs from rfl,
      show pyWords (xs ++ c :: (cs ++ ys)) = wordsAux [] (xs ++ c :: (cs ++ ys)) from rfl,
      wordsAux_append_space c hc]
    have : wordsAux [] (cs ++ ys) = pyWords ys :=
      pyWords_space_prefix cs (fun d hd => hsep d (by simp [hd])) ys
    rw [this]

/-- The words of an all-whitespace join are the concatenation of the words
of the parts. -/
theorem pyWords_pyJoin (sep : Str) (hne : sep ≠ [])
    (hsep : ∀ c ∈ sep, pyIsSpace c) :
    ∀ parts : List Str,
      pyWords (pyJoin sep parts) = (parts.map pyWords).flatten := by
  intro parts
  induction parts with
  | nil => rfl
  | cons p ps ih =>
    cases ps with
    | nil => simp [pyJoin]
    | cons q t =>
      have h1 : pyJoin sep (p :: q :: t) = p ++ sep ++ pyJoin sep (q :: t) := rfl
      rw [h1, pyWords_append_sep sep hne hsep, ih]
      simp

/-- The double-newline split never returns an empty list. -/
theorem split2NL_ne_nil (cs : Str) : split2NL cs ≠ [] := by
  induction cs using split2NL.induct with
  | case1 => simp [split2NL]
  | case2 rest ih => simp [split2NL]
  | case3 c rest h hsplit ih => exact absurd hsplit ih
  | case4 c rest h p ps hsplit ih =>
    rw [split2NL.eq_3 c rest h, hsplit]
    simp

/-- Joining the double-newline split with a double newline reconstructs the
string (Python `"\n\n".join(text.split("\n\n")) == text`). -/
theorem pyJoin_split2NL (cs : Str) :
    pyJoin ['\n', '\n'] (split2NL cs) = cs := by
  induction cs using split2NL.induct with
  | case1 => rfl
  | case2 rest ih =>
    rw [split2NL.eq_2]
    obtain ⟨p, ps, hps⟩ := List.exists_cons_of_ne_nil (split2NL_ne_nil rest)
    rw [hps] at ih ⊢
    show ([] : Str) ++ ['\n', '\n'] ++ pyJoin ['\n', '\n'] (p :: ps) = _
    rw [List.nil_append]
    simpa using ih
  | case3 c rest h hsplit ih => exact absurd hsplit (split2NL_ne_nil rest)
  | case4 c rest h p ps hsplit ih =>
    rw [split2NL.eq_3 c rest h, hsplit]
    rw [hsplit] at ih
    cases ps with
    | nil => simpa [pyJoin] using congrArg (c :: ·) ih
    | cons q t =>
      show (c :: p) ++ ['\n', '\n'] ++ pyJoin ['\n', '\n'] (q :: t) = c :: rest
      have : p ++ ['\n', '\n'] ++ pyJoin ['\n', '\n'] (q :: t) = rest := ih
      simpa using congrArg (c :: ·) this

/-- The words of the double-newline split concatenate to the words of the
string. -/
theorem split2NL_words (cs : Str) :
    ((split2NL cs).map pyWords).flatten = pyWords cs := by
  conv_rhs => rw [← pyJoin_split2NL cs]
  rw [pyWords_pyJoin ['\n', '\n'] (by simp) (by simp [pyIsSpace])]

/-- A successful sentence-boundary match is at a whitespace character. -/
theorem splitHereOSS_space {p3 p2 p1 : Option Char} {c : Char}
    (h : splitHereOSS p3 p2 p1 c = true) : pyIsSpace c = true := by
  simp only [splitHereOSS, Bool.and_eq_true] at h
  exact h.1.1.1

/-- The words of the sentence-split parts concatenate to the words of the
scanned string (the split only ever removes whitespace characters). -/
theorem ossSentSplitAux_words :
    ∀ (cs : Str) (p3 p2 p1 : Option Char) (cur : Str),
      ((ossSentSplitAux p3 p2 p1 cur cs).map pyWords).flatten
        = pyWords (cur.reverse ++ cs) := by
  intro cs
  induction cs with
  | nil => intro p3 p2 p1 cur; simp [ossSentSplitAux]
  | cons c cs ih =>
    intro p3 p2 p1 cur
    by_cases h : splitHereOSS p3 p2 p1 c = true
    · have hsp := splitHereOSS_space h
      simp only [ossSentSplitAux, h, if_pos, List.map_cons, List.flatten_cons]
      rw [ih]
      show pyWords cur.reverse ++ pyWords ([] ++ cs) = _
      rw [List.nil_append,
        show pyWords (cur.reverse ++ c :: cs)
          = wordsAux [] (cur.reverse ++ c :: cs) from rfl,
        wordsAux_append_space c hsp]
      rfl
    · simp only [ossSentSplitAux, h, if_neg, Bool.false_eq_true,
        not_false_iff]
      rw [ih]
      simp

/-- The words of the sentence split concatenate to the words of the string. -/
theorem ossSentSplit_words (cs : Str) :
    ((ossSentSplit cs).map pyWords).flatten = pyWords cs := by
  simpa using ossSentSplitAux_words cs none none none []

/-- The words of the selected units concatenate to the words of the text. -/
theorem split_units_words (text : Str) :
    ((split_units text).map pyWords).flatten = pyWords text := by
  unfold split_units
  by_cases h : (split2NL text).length < 3
  · simp only [h, if_pos]
    exact ossSentSplit_words text
  · simp only [h, if_neg, not_false_iff]
    exact split2NL_words text

/-- The chunk-unit lists produced by the greedy packing loop concatenate to
the accumulated chunk followed by the remaining units. -/
theorem combineAux_flatten (C : ℕ) :
    ∀ (us : List Str) (cur : List Str) (s : ℕ),
      (combineAux C cur s us).flatten = cur.reverse ++ us := by
  intro us
  induction us with
  | nil =>
    intro cur s
    by_cases h : cur = [] <;> simp [combineAux, h]
  | cons u us ih =>
    intro cur s
    by_cases h1 : s + (pyWords u).length ≤ C
    · simp only [combineAux, h1, if_pos]
      rw [ih]
      simp
    · by_cases h2 : cur = []
      · simp only [combineAux, h1, if_neg, not_false_iff, h2, if_pos]
        rw [ih]
        simp [h2]
      · simp only [combineAux, h1, if_neg, not_false_iff, h2,
          List.flatten_cons]
        rw [ih]
        simp

/-- Every chunk-unit list produced by the packing loop is nonempty. -/
theorem combineAux_ne_nil (C : ℕ) :
    ∀ (us : List Str) (cur : List Str) (s : ℕ) (cl : List Str),
      cl ∈ combineAux C cur s us → cl ≠ [] := by
  intro us
  induction us with
  | nil =>
    intro cur s cl hcl
    by_cases h : cur = []
    · simp [combineAux, h] at hcl
    · simp only [combineAux, h, if_neg, not_false_iff, List.mem_singleton] at hcl
      simp [hcl, h]
  | cons u us ih =>
    intro cur s cl hcl
    by_cases h1 : s + (pyWords u).length ≤ C
    · simp only [combineAux, h1, if_pos] at hcl
      exact ih _ _ cl hcl
    · by_cases h2 : cur = []
      · simp only [combineAux, h1, if_neg, not_false_iff, h2, if_pos] at hcl
        exact ih _ _ cl hcl
      · simp only [combineAux, h1, if_neg, not_false_iff, h2,
          List.mem_cons] at hcl
        rcases hcl with hcl | hcl
        · simp [hcl, h2]
        · exact ih _ _ cl hcl

/-- Size invariant of the packing loop: every produced chunk-unit list
either fits the word bound or is a single unit. -/
theorem combineAux_bound (C : ℕ) :
    ∀ (us : List Str) (cur : List Str) (s : ℕ) (cl : List Str),
      s = wsum cur → (s ≤ C ∨ ∃ u, cur = [u]) →
      cl ∈ combineAux C cur s us → wsum cl ≤ C ∨ ∃ u, cl = [u] := by
  intro us
  induction us with
  | nil =>
    intro cur s cl hs hinv hcl
    by_cases h : cur = []
    · simp [combineAux, h] at hcl
    · simp only [combineAux, h, if_neg, not_false_iff,
        List.mem_singleton] at hcl
      subst hcl
      rcases hinv with hle | ⟨u, hu⟩
      · left
        have : wsum cur.reverse = wsum cur := by
          simp [wsum, List.map_reverse, List.sum_reverse]
        omega
      · right; exact ⟨u, by simp [hu]⟩
  | cons u us ih =>
    intro cur s cl hs hinv hcl
    by_cases h1 : s + (pyWords u).length ≤ C
    · simp only [combineAux, h1, if_pos] at hcl
      refine ih _ _ cl ?_ (Or.inl h1) hcl
      simp [wsum, hs, Nat.add_comm]
    · by_cases h2 : cur = []
      · simp only [combineAux, h1, if_neg, not_false_iff, h2, if_pos] at hcl
        exact ih _ _ cl (by simp [wsum]) (Or.inr ⟨u, rfl⟩) hcl
      · simp only [combineAux, h1, if_neg, not_false_iff, h2,
          List.mem_cons] at hcl
        rcases hcl with hcl | hcl
        · subst hcl
          rcases hinv with hle | ⟨v, hv⟩
          · left
            have : wsum cur.reverse = wsum cur := by
              simp [wsum, List.map_reverse, List.sum_reverse]
            omega
          · right; exact ⟨v, by simp [hv]⟩
        · exact ih _ _ cl (by simp [wsum]) (Or.inr ⟨u, rfl⟩) hcl

/-- The word count of a space-joined chunk is the word-count sum of its
units. -/
theorem pyWords_join_wsum (cl : List Str) :
    (pyWords (pyJoin [' '] cl)).length = wsum cl := by
  rw [pyWords_pyJoin [' '] (by simp) (by simp [pyIsSpace]),
    List.length_flatten, wsum, List.map_map]
  rfl

/-- Flattening commutes with mapping over a flattened list of lists. -/
theorem flatten_map_flatten {α β : Type} (f : α → List β) (L : List (List α)) :
    (L.map (fun l => ((l.map f).flatten))).flatten = ((L.flatten).map f).flatten := by
  induction L with
  | nil => rfl
  | cons l L ih => simp [List.map_append, List.flatten_append, ih]

/-- Claim C1 (amended): for every text and positive word bound W, joining
the chunks with single spaces reproduces exactly the words of the input in
order; no chunk exceeds W words unless it is a single oversized unit; and a
chunk can only be the empty string when the unit split itself produced an
empty unit (which can happen for non-empty input, see the counterexample). -/
theorem C1_chunker_correct (text : Str) (W : ℕ) (hW : 0 < W) :
    pyWords (pyJoin [' '] (split_into_chunks text W)) = pyWords text
    ∧ (∀ chunk ∈ split_into_chunks text W,
        (pyWords chunk).length ≤ W ∨ chunk ∈ split_units text)
    ∧ (∀ chunk ∈ split_into_chunks text W, chunk = [] → [] ∈ split_units text) := by
  have hflat : (combineAux W [] 0 (split_units text)).flatten = split_units text := by
    simpa using combineAux_flatten W (split_units text) [] 0
  refine ⟨?_, ?_, ?_⟩
  · unfold split_into_chunks combine_units
    rw [pyWords_pyJoin [' '] (by simp) (by simp [pyIsSpace]), List.map_map]
    have hcong :
        (combineAux W [] 0 (split_units text)).map (pyWords ∘ pyJoin [' '])
          = (combineAux W [] 0 (split_units text)).map
              (fun c => ((c.map pyWords).flatten)) := by
      apply List.map_congr_left
      intro c _
      exact pyWords_pyJoin [' '] (by simp) (by simp [pyIsSpace]) c
    rw [hcong, flatten_map_flatten, hflat, split_units_words]
  · intro chunk hchunk
    unfold split_into_chunks combine_units at hchunk
    obtain ⟨cl, hcl, hchunk⟩ := List.mem_map.mp hchunk
    have hbound := combineAux_bound W (split_units text) [] 0 cl rfl
      (Or.inl (Nat.zero_le W)) hcl
    rcases hbound with hle | ⟨u, hu⟩
    · left
      rw [← hchunk, pyWords_join_wsum]
      exact hle
    · right
      have hmem : u ∈ (combineAux W [] 0 (split_units text)).flatten :=
        List.mem_flatten.mpr ⟨cl, hcl, by simp [hu]⟩
    
      rw [hflat] at hmem
      have : chunk = u := by simp [← hchunk, hu, pyJoin]
      rw [this]
      exact hmem
  · intro chunk hchunk hempty
    unfold split_into_chunks combine_units at hchunk
    obtain ⟨cl, hcl, hchunk⟩ := List.mem_map.mp hchunk
    have hne := combineAux_ne_nil W (split_units text) [] 0 cl hcl
    cases cl with
    | nil => exact absurd rfl hne
    | cons u t =>
      cases t with
      | nil =>
        have hu : chunk = u := by simp [← hchunk, pyJoin]
        have : u ∈ (combineAux W [] 0 (split_units text)).flatten :=
          List.mem_flatten.mpr ⟨[u], hcl, by simp⟩
        rw [hflat] at this
        rw [hu] at hempty
        rw [← hempty]
        exact this
      | cons v t2 =>
        exfalso
        have : pyJoin [' '] (u :: v :: t2) = u ++ ' ' :: pyJoin [' '] (v :: t2) := by
          simp [pyJoin]
        rw [← hchunk, this] at hempty
        simp at hempty

/-- Claim C1 counterexample: on the non-empty input "a\n\nbb cc\n\n" with
bound 1, the chunker returns an empty third chunk (the trailing empty
paragraph unit), refuting the guarantee that no returned chunk is empty
unless the input is empty. -/
theorem C1_counterexample :
    str "a\n\nbb cc\n\n" ≠ ([] : Str)
    ∧ split_into_chunks (str "a\n\nbb cc\n\n") 1 = [str "a", str "bb cc", []] := by
  constructor
  · decide
  · decide

/-- Witness for `C1_chunker_correct` at a concrete text and bound. -/
theorem C1_chunker_correct_witness :
    (0 : ℕ) < 2
    ∧ (pyWords (pyJoin [' '] (split_into_chunks (str "one two. three four five.") 2))
        = pyWords (str "one two. three four five.")
      ∧ (∀ chunk ∈ split_into_chunks (str "one two. three four five.") 2,
          (pyWords chunk).length ≤ 2 ∨ chunk ∈ split_units (str "one two. three four five."))
      ∧ (∀ chunk ∈ split_into_chunks (str "one two. three four five.") 2,
          chunk = [] → [] ∈ split_units (str "one two. three four five."))) :=
  ⟨by decide, C1_chunker_correct (str "one two. three four five.") 2 (by decide)⟩

/-- A successful 11-character capture has length 11 and valid characters. -/
theorem take11_valid {cs t : Str} (h : take11 cs = some t) :
    t.length = 11 ∧ t.all vidChar = true := by
  unfold take11 at h
  split at h
  · rename_i hc
    obtain rfl : cs.take 11 = t := Option.some.inj h
    exact hc
  · cases h

/-- Any capture of the `v=`/`/` pattern has length 11 and valid characters. -/
theorem scanVEq_valid :
    ∀ (cs : Str) {t : Str}, scanVEq cs = some t →
      t.length = 11 ∧ t.all vidChar = true := by
  intro cs
  induction cs with
  | nil => intro t h; simp [scanVEq] at h
  | cons c cs ih =>
    intro t h
    by_cases h1 : c = 'v' ∧ cs.head? = some '='
    · rw [scanVEq, if_pos h1] at h
      cases h11 : take11 (cs.drop 1) with
      | some u => rw [h11] at h; cases h; exact take11_valid h11
      | none => rw [h11] at h; exact ih h
    · by_cases h2 : c = '/'
      · rw [scanVEq, if_neg h1, if_pos h2] at h
        cases h11 : take11 cs with
        | some u => rw [h11] at h; cases h; exact take11_valid h11
        | none => rw [h11] at h; exact ih h
      · rw [scanVEq, if_neg h1, if_neg h2] at h
        exact ih h

/-- Any capture of a literal-prefix pattern has length 11 and valid
characters. -/
theorem scanLit_valid (lit : Str) :
    ∀ (cs : Str) {t : Str}, scanLit lit cs = some t →
      t.length = 11 ∧ t.all vidChar = true := by
  intro cs
  induction cs with
  | nil => intro t h; simp [scanLit] at h
  | cons c cs ih =>
    intro t h
    by_cases h1 : strStarts lit (c :: cs) = true
    · rw [scanLit, if_pos h1] at h
      cases h11 : take11 ((c :: cs).drop lit.length) with
      | some u => rw [h11] at h; cases h; exact take11_valid h11
      | none => rw [h11] at h; exact ih h
    · rw [scanLit, if_neg h1] at h
      exact ih h

/-- A whole-string match has length 11 and valid characters. -/
theorem matchWhole11_valid {url t : Str} (h : matchWhole11 url = some t) :
    t.length = 11 ∧ t.all vidChar = true := by
  unfold matchWhole11 at h
  split at h
  · rename_i hc
    obtain rfl : url.take 11 = t := Option.some.inj h
    exact ⟨hc.1, hc.2.1⟩
  · cases h

/-- Claim C10: every non-None result of `extract_video_id` is a string of
exactly 11 characters drawn from ASCII letters, digits, underscore and
hyphen. -/
theorem C10_extract_video_id_shape (url : Str) (s : Str)
    (h : extract_video_id url = some s) :
    s.length = 11 ∧ s.all vidChar = true := by
  unfold extract_video_id at h
  cases h1 : scanVEq url with
  | some t => rw [h1] at h; cases h; exact scanVEq_valid url h1
  | none =>
    rw [h1] at h
    cases h2 : scanLit (str "youtu.be/") url with
    | some t => rw [h2] at h; cases h; exact scanLit_valid _ url h2
    | none =>
      rw [h2] at h
      cases h3 : scanLit (str "shorts/") url with
      | some t => rw [h3] at h; cases h; exact scanLit_valid _ url h3
      | none => rw [h3] at h; exact matchWhole11_valid h

/-- Witness for `C10_extract_video_id_shape` on a concrete short URL. -/
theorem C10_extract_video_id_shape_witness :
    (str "dQw4w9WgXcQ").length = 11 ∧ (str "dQw4w9WgXcQ").all vidChar = true :=
  C10_extract_video_id_shape (str "https://youtu.be/dQw4w9WgXcQ")
    (str "dQw4w9WgXcQ") (by decide)

/-- Claim C7: the relevance score is the matched fraction of keywords: it is
0 for an empty keyword list, exactly 1 when every keyword occurs in the
text, bounded by [0,1], and monotonically non-decreasing in the number of
matched keywords. -/
theorem C7_calculate_relevance_correct (text : Str) (keywords : List Str) :
    (keywords = [] → calculate_relevance text keywords = 0)
    ∧ (keywords ≠ [] →
        calculate_relevance text keywords =
          (keywords.countP (fun k => decide (k <:+: text)) : ℚ) / (keywords.length : ℚ))
    ∧ (keywords ≠ [] → (∀ k ∈ keywords, k <:+: text) →
        calculate_relevance text keywords = 1)
    ∧ (0 ≤ calculate_relevance text keywords ∧ calculate_relevance text keywords ≤ 1)
    ∧ (∀ text2 : Str,
        keywords.countP (fun k => decide (k <:+: text)) ≤
          keywords.countP (fun k => decide (k <:+: text2)) →
        calculate_relevance text keywords ≤ calculate_relevance text2 keywords) := by
  refine ⟨fun h => by simp [calculate_relevance, h], ?_, ?_, ?_, ?_⟩
  · intro h
    simp [calculate_relevance, h]
  · intro h hall
    have hcnt : keywords.countP (fun k => decide (k <:+: text)) = keywords.length :=
      List.countP_eq_length.mpr (fun k hk => by simp [hall k hk])
    have hlen : (keywords.length : ℚ) ≠ 0 := by
      simp [List.length_eq_zero]
      exact h
    simp [calculate_relevance, h, hcnt, div_self hlen]
  · constructor
    · unfold calculate_relevance
      split
      · exact le_refl 0
      · positivity
    · unfold calculate_relevance
      split
      · exact zero_le_one
      · rename_i h
        have hlen : (0 : ℚ) < (keywords.length : ℚ) := by
          have : keywords.length ≠ 0 := by
            simp [List.length_eq_zero]
            exact h
          positivity
        rw [div_le_one hlen]
        exact_mod_cast List.countP_le_length _
  · intro text2 hle
    unfold calculate_relevance
    by_cases h : keywords = []
    · simp [h]
    · simp only [h, if_neg, not_false_iff]
      have hlen : (0 : ℚ) < (keywords.length : ℚ) := by
        have : keywords.length ≠ 0 := by
          simp [List.length_eq_zero]
          exact h
        positivity
      exact (div_le_div_iff_of_pos_right hlen).mpr (by exact_mod_cast hle)

/-- Witness for `C7_calculate_relevance_correct`: all keywords matched on a
concrete text gives exactly 1. -/
theorem C7_calculate_relevance_correct_witness :
    calculate_relevance (str "hello world") [str "hello", str "world"] = 1 :=
  (C7_calculate_relevance_correct (str "hello world")
    [str "hello", str "world"]).2.2.1 (by decide) (by decide)

/-- Claim C8 (amended): on the model output
"1. [2:30] Point A\n2. [5:45] Point B", the improved-agent parsing step
(bracketed-timestamp regex) yields exactly the two key points
("2:30", "Point A") and ("5:45", "Point B") in that order, while the
OpenAISummarizer parsing step (numbering strip followed by the anchored
"mm:ss - text" regex) parses zero key points from the same output. -/
theorem C8_key_point_parsing :
    iaParseKeyPoints (str "1. [2:30] Point A\n2. [5:45] Point B")
      = [(str "2:30", str "Point A"), (str "5:45", str "Point B")]
    ∧ oss_extract_key_points_parse (str "1. [2:30] Point A\n2. [5:45] Point B")
      = [] := by
  refine ⟨by decide, by decide⟩

/-- Claim C8 counterexample: the equally-cited
`OpenAISummarizer.extract_key_points` parsing step strips the "1. "
numbering and then requires a line of the form "mm:ss - text", so on the
quoted bracketed output it extracts zero key points, not two — the
function then falls into its synthetic-generation branch instead of
returning parsed points. -/
theorem C8_counterexample :
    oss_extract_key_points_parse (str "1. [2:30] Point A\n2. [5:45] Point B")
      ≠ [(str "2:30", str "Point A"), (str "5:45", str "Point B")]
    ∧ (oss_extract_key_points_parse
        (str "1. [2:30] Point A\n2. [5:45] Point B")).length = 0 := by
  refine ⟨by decide, by decide⟩

/-- Claim C4 (amended): the api_server transcript fetch returns the fixed
placeholder transcript whenever the client is unavailable or the fetch
raises, instead of propagating the error. -/
theorem C4_get_transcript_placeholder (avail : Bool)
    (fetch : Except Unit (List TSeg))
    (h : avail = false ∨ fetch = .error ()) :
    apiGetTranscript avail fetch = apiMockTranscript := by
  rcases h with h | h
  · simp [apiGetTranscript, h]
  · cases avail <;> simp [apiGetTranscript, h]

/-- Witness for `C4_get_transcript_placeholder` with a failing fetch. -/
theorem C4_get_transcript_placeholder_witness :
    apiGetTranscript true (.error ()) = apiMockTranscript :=
  C4_get_transcript_placeholder true (.error ()) (Or.inr rfl)

/-- Claim C4 counterexample: `ImprovedTranscriptAgent.process` raises
`HTTPException(404)` on a failing fetch rather than returning the fixed
placeholder transcript, so the claim does not hold for this cited
transcript-fetch operation. -/
theorem C4_counterexample : itaProcess (.error ()) = .error 404 := rfl

/-- Claim C9: with at least two summaries carrying non-empty titles, when
the API key is absent or the completion/JSON-parse fails, `compare_videos`
returns the templated fallback comparison without raising: its differences
reference the first and second titles positionally and its recommendation
names the first title before the second. -/
theorem C9_comparison_fallback (apiKey : Bool)
    (apiResult : Option (List Str × List Str × Str))
    (s0 s1 : VCSummary) (rest : List VCSummary)
    (hfail : apiKey = false ∨ apiResult = none)
    (ht0 : s0.title ≠ []) (ht1 : s1.title ≠ []) :
    vcCompareVideos apiKey apiResult (s0 :: s1 :: rest)
      = vcFallbackComparison (s0 :: s1 :: rest)
    ∧ (vcCompareVideos apiKey apiResult (s0 :: s1 :: rest)).commonTopics
      = [str "Both videos discuss related topics",
         str "They share educational content"]
    ∧ (vcCompareVideos apiKey apiResult (s0 :: s1 :: rest)).differences
      = [s0.title ++ str " focuses more on theory, while "
           ++ s1.title ++ str " is more practical",
         s0.title ++ str " is more detailed in some areas, while "
           ++ s1.title ++ str " covers additional points"]
    ∧ (vcCompareVideos apiKey apiResult (s0 :: s1 :: rest)).recommendation
      = str "Watch " ++ s0.title ++ str " first for background, then "
          ++ s1.title ++ str " for practical applications." := by
  have hcmp : vcCompareVideos apiKey apiResult (s0 :: s1 :: rest)
      = vcFallbackComparison (s0 :: s1 :: rest) := by
    rcases hfail with h | h <;> simp [vcCompareVideos, h]
  have htitles :
      ((s0 :: s1 :: rest).enum.map (fun p => vcExtractTitle p.1 p.2)).getD 0 []
        = s0.title ∧
      ((s0 :: s1 :: rest).enum.map (fun p => vcExtractTitle p.1 p.2)).getD 1 []
        = s1.title := by
    constructor
    · simp [List.enum, vcExtractTitle, ht0]
    · simp [List.enum, vcExtractTitle, ht1]
  have hlen :
      1 < ((s0 :: s1 :: rest).enum.map (fun p => vcExtractTitle p.1 p.2)).length := by
    simp
  refine ⟨hcmp, ?_, ?_, ?_⟩ <;>
    simp only [hcmp, vcFallbackComparison, htitles.1, htitles.2, hlen, if_pos]

/-- Witness for `C9_comparison_fallback` on the spec's scenario-B titles. -/
theorem C9_comparison_fallback_witness :
    vcCompareVideos false none summariesC9 = vcFallbackComparison summariesC9
    ∧ (vcCompareVideos false none summariesC9).commonTopics
      = [str "Both videos discuss related topics",
         str "They share educational content"]
    ∧ (vcCompareVideos false none summariesC9).differences
      = [str "Intro to X" ++ str " focuses more on theory, while "
           ++ str "Advanced X" ++ str " is more practical",
         str "Intro to X" ++ str " is more detailed in some areas, while "
           ++ str "Advanced X" ++ str " covers additional points"]
    ∧ (vcCompareVideos false none summariesC9).recommendation
      = str "Watch " ++ str "Intro to X" ++ str " first for background, then "
          ++ str "Advanced X" ++ str " for practical applications." :=
  C9_comparison_fallback false none
    { videoId := str "vid1", title := str "Intro to X", summary := str "s1",
      keyPoints := [] }
    { videoId := str "vid2", title := str "Advanced X", summary := str "s2",
      keyPoints := [] }
    [] (Or.inl rfl) (by decide) (by decide)

/-- Claim C5 counterexample: when no OpenAI API key is configured,
`generate_openai_summary` returns the null failure signal even for a text
of fewer than 200 words, not the text itself: the API-key guard precedes
the pass-through guard. -/
theorem C5_counterexample :
    (pyWords (str "a short text")).length < 200
    ∧ (iaGenerateOpenAISummary false (fun _ => .error ())
        (fun _ => (none, [], 0)) (str "a short text")).1 = none
    ∧ (iaGenerateOpenAISummary false (fun _ => .error ())
        (fun _ => (none, [], 0)) (str "a short text")).1
      ≠ some (str "a short text") := by
  refine ⟨by decide, rfl, by decide⟩

/-- Claim C5 (amended): for a text of fewer than 200 words,
`generate_openai_summary` returns it unchanged when an API key is present,
and returns the null signal when no key is present; the fallback
summarizer returns such a text unchanged as well, so the composed
summarize operation of `process` is the identity on short texts in both
cases. -/
theorem C5_short_text_pass_through (apiKey : Bool)
    (oracle : ℕ → Except Unit Str) (longPath : Str → Option Str × List ℕ × ℕ)
    (lexrank : Str → Option Str) (simple : Str → Str) (t : Str)
    (h : (pyWords t).length < 200) :
    (apiKey = true → (iaGenerateOpenAISummary apiKey oracle longPath t).1 = some t)
    ∧ (apiKey = false → (iaGenerateOpenAISummary apiKey oracle longPath t).1 = none)
    ∧ iaGenerateFallbackSummary lexrank simple t = t
    ∧ iaProcessSummary apiKey oracle longPath lexrank simple t = t := by
  have hproc : (if 15000 < (pyWords t).length then
      pyJoin [' '] ((pyWords t).take 15000) else t) = t := by
    rw [if_neg (by omega)]
  have hfb : iaGenerateFallbackSummary lexrank simple t = t := by
    simp [iaGenerateFallbackSummary, h]
  refine ⟨?_, ?_, hfb, ?_⟩
  · intro hk
    simp [iaGenerateOpenAISummary, hk, h]
  · intro hk
    simp [iaGenerateOpenAISummary, hk]
  · cases apiKey
    · simp [iaProcessSummary, hproc, iaGenerateOpenAISummary, hfb]
    · simp only [iaProcessSummary, hproc, iaGenerateOpenAISummary,
        Bool.not_true, Bool.false_eq_true, if_neg, not_false_iff, h, if_pos]
      by_cases ht : t = []
      · subst ht
        simp [hfb]
      · simp [ht]

/-- Witness for `C5_short_text_pass_through` on a concrete short text. -/
theorem C5_short_text_pass_through_witness :
    ((true : Bool) = true →
      (iaGenerateOpenAISummary true (fun _ => .error ())
        (fun _ => (none, [], 0)) (str "five words of test text")).1
        = some (str "five words of test text"))
    ∧ ((true : Bool) = false →
      (iaGenerateOpenAISummary true (fun _ => .error ())
        (fun _ => (none, [], 0)) (str "five words of test text")).1 = none)
    ∧ iaGenerateFallbackSummary (fun _ => none) (fun _ => [])
        (str "five words of test text") = str "five words of test text"
    ∧ iaProcessSummary true (fun _ => .error ()) (fun _ => (none, [], 0))
        (fun _ => none) (fun _ => []) (str "five words of test text")
      = str "five words of test text" :=
  C5_short_text_pass_through true (fun _ => .error ()) (fun _ => (none, [], 0))
    (fun _ => none) (fun _ => []) (str "five words of test text") (by decide)

/-- Claim C3 counterexample: with every completion call returning a
too-short (empty) response on a 200-word transcript, the loop makes its 3
attempts and returns the null signal, but performs no 2-second sleeps at
all — the fixed backoff only happens in the exception handler, not after
short responses. -/
theorem C3_counterexample :
    iaGenerateOpenAISummary true (fun _ => .ok []) (fun _ => (none, [], 0)) textC3
      = (none, [], 3)
    ∧ ([] : List ℕ) ≠ [2, 2] := by
  refine ⟨by decide, by decide⟩

/-- Claim C3 (amended): on the short-text path, when all three completion
attempts fail or return too-short responses, the loop makes exactly 3
attempts, returns the null failure signal without raising, and sleeps a
fixed 2 seconds only after an attempt that raised an exception and was not
the last one; too-short responses retry immediately with no sleep. -/
theorem C3_retry_returns_none (oracle : ℕ → Except Unit Str)
    (longPath : Str → Option Str × List ℕ × ℕ) (t : Str)
    (hwc : 200 ≤ (pyWords t).length) (hlen : t.length ≤ 12000)
    (hfail : ∀ a, a < 3 → iaFailedAttempt (oracle a)) :
    (iaGenerateOpenAISummary true oracle longPath t).1 = none
    ∧ (iaGenerateOpenAISummary true oracle longPath t).2.2 = 3
    ∧ (iaGenerateOpenAISummary true oracle longPath t).2.1
      = ((List.range 2).map
          (fun a => if (oracle a).isOk then ([] : List ℕ) else [2])).flatten := by
  have hg : iaGenerateOpenAISummary true oracle longPath t
      = iaAttempts oracle 3 0 := by
    simp [iaGenerateOpenAISummary, show ¬((pyWords t).length < 200) by omega,
      show ¬(12000 < t.length) by omega]
  have h0 := hfail 0 (by omega)
  have h1 := hfail 1 (by omega)
  have h2 := hfail 2 (by omega)
  rw [hg]
  cases ho0 : oracle 0 with
  | error e0 =>
    cases ho1 : oracle 1 with
    | error e1 =>
      cases ho2 : oracle 2 with
      | error e2 =>
        simp [iaAttempts, ho0, ho1, ho2, List.range_succ, Except.isOk, Except.toBool]
      | ok s2 =>
        rw [ho2] at h2
        simp only [iaFailedAttempt] at h2
        simp [iaAttempts, ho0, ho1, ho2, show ¬(100 < (pyStrip s2).length) by omega,
          List.range_succ, Except.isOk, Except.toBool]
    | ok s1 =>
      rw [ho1] at h1
      simp only [iaFailedAttempt] at h1
      cases ho2 : oracle 2 with
      | error e2 =>
        simp [iaAttempts, ho0, ho1, ho2, show ¬(100 < (pyStrip s1).length) by omega,
          List.range_succ, Except.isOk, Except.toBool]
      | ok s2 =>
        rw [ho2] at h2
        simp only [iaFailedAttempt] at h2
        simp [iaAttempts, ho0, ho1, ho2, show ¬(100 < (pyStrip s1).length) by omega,
          show ¬(100 < (pyStrip s2).length) by omega, List.range_succ, Except.isOk, Except.toBool]
  | ok s0 =>
    rw [ho0] at h0
    simp only [iaFailedAttempt] at h0
    cases ho1 : oracle 1 with
    | error e1 =>
      cases ho2 : oracle 2 with
      | error e2 =>
        simp [iaAttempts, ho0, ho1, ho2, show ¬(100 < (pyStrip s0).length) by omega,
          List.range_succ, Except.isOk, Except.toBool]
      | ok s2 =>
        rw [ho2] at h2
        simp only [iaFailedAttempt] at h2
        simp [iaAttempts, ho0, ho1, ho2, show ¬(100 < (pyStrip s0).length) by omega,
          show ¬(100 < (pyStrip s2).length) by omega, List.range_succ, Except.isOk, Except.toBool]
    | ok s1 =>
      rw [ho1] at h1
      simp only [iaFailedAttempt] at h1
      cases ho2 : oracle 2 with
      | error e2 =>
        simp [iaAttempts, ho0, ho1, ho2, show ¬(100 < (pyStrip s0).length) by omega,
          show ¬(100 < (pyStrip s1).length) by omega, List.range_succ, Except.isOk, Except.toBool]
      | ok s2 =>
        rw [ho2] at h2
        simp only [iaFailedAttempt] at h2
        simp [iaAttempts, ho0, ho1, ho2, show ¬(100 < (pyStrip s0).length) by omega,
          show ¬(100 < (pyStrip s1).length) by omega,
          show ¬(100 < (pyStrip s2).length) by omega, List.range_succ, Except.isOk, Except.toBool]

/-- Witness for `C3_retry_returns_none`: all three calls raise on a
concrete 200-word transcript; the result is null and the trace is two
2-second sleeps. -/
theorem C3_retry_returns_none_witness :
    (iaGenerateOpenAISummary true (fun _ => .error ())
      (fun _ => (none, [], 0)) textC3).1 = none
    ∧ (iaGenerateOpenAISummary true (fun _ => .error ())
      (fun _ => (none, [], 0)) textC3).2.2 = 3
    ∧ (iaGenerateOpenAISummary true (fun _ => .error ())
      (fun _ => (none, [], 0)) textC3).2.1
      = ((List.range 2).map
          (fun a => if ((fun _ => (.error () : Except Unit Str)) a).isOk
            then ([] : List ℕ) else [2])).flatten :=
  C3_retry_returns_none (fun _ => .error ()) (fun _ => (none, [], 0)) textC3
    (by decide) (by decide) (fun a _ => by simp [iaFailedAttempt])

/-- Stripping after a leading space is stripping without it. -/
theorem pyStrip_cons_space {c : Char} (hc : pyIsSpace c = true) (y : Str) :
    pyStrip (c :: y) = pyStrip y := by
  simp [pyStrip, List.dropWhile_cons, hc]

/-- A prefix of a list unchanged by `dropWhile` is itself unchanged. -/
theorem dropWhile_of_prefix {p : Char → Bool} {y u : Str} (hpre : y <+: u)
    (hu : u.dropWhile p = u) : y.dropWhile p = y := by
  obtain ⟨t, rfl⟩ := hpre
  cases y with
  | nil => rfl
  | cons c y2 =>
    rw [List.cons_append, List.dropWhile_cons] at hu
    by_cases hpc : p c = true
    · exfalso
      rw [if_pos hpc] at hu
      have hlen := congrArg List.length hu
      have hle := (List.dropWhile_sublist (l := y2 ++ t) (p := p)).length_le
      rw [List.length_cons] at hlen
      omega
    · rw [List.dropWhile_cons, if_neg hpc]

/-- Python `strip()` is idempotent. -/
theorem pyStrip_idem (x : Str) : pyStrip (pyStrip x) = pyStrip x := by
  have huu : (x.dropWhile pyIsSpace).dropWhile pyIsSpace = x.dropWhile pyIsSpace :=
    List.dropWhile_idempotent _ _
  have hsuf : (x.dropWhile pyIsSpace).reverse.dropWhile pyIsSpace
      <:+ (x.dropWhile pyIsSpace).reverse := List.dropWhile_suffix _
  obtain ⟨t, ht⟩ := hsuf
  have hpre : ((x.dropWhile pyIsSpace).reverse.dropWhile pyIsSpace).reverse
      <+: x.dropWhile pyIsSpace :=
    ⟨t.reverse, by rw [← List.reverse_append, ht, List.reverse_reverse]⟩
  have hfront : (((x.dropWhile pyIsSpace).reverse.dropWhile pyIsSpace).reverse).dropWhile pyIsSpace
      = ((x.dropWhile pyIsSpace).reverse.dropWhile pyIsSpace).reverse :=
    dropWhile_of_prefix hpre huu
  show ((((pyStrip x).dropWhile pyIsSpace).reverse).dropWhile pyIsSpace).reverse = pyStrip x
  have h1 : (pyStrip x).dropWhile pyIsSpace = pyStrip x := hfront
  rw [h1]
  have h2 : (pyStrip x).reverse
      = (x.dropWhile pyIsSpace).reverse.dropWhile pyIsSpace := by
    simp [pyStrip]
  rw [h2, List.dropWhile_idempotent]
  rfl

/-- Characters of a stripped string are characters of the string. -/
theorem mem_pyStrip {c : Char} {x : Str} (h : c ∈ pyStrip x) : c ∈ x := by
  unfold pyStrip at h
  rw [List.mem_reverse] at h
  have h2 := (List.dropWhile_sublist (l := (x.dropWhile pyIsSpace).reverse)
    (p := pyIsSpace)).mem h
  rw [List.mem_reverse] at h2
  exact (List.dropWhile_sublist (l := x) (p := pyIsSpace)).mem h2

/-- The punctuation split never returns an empty list. -/
theorem splitPunct_ne_nil (cs : Str) : splitPunct cs ≠ [] := by
  induction cs with
  | nil => simp [splitPunct]
  | cons c cs ih =>
    by_cases hc : c = '.' ∨ c = '!' ∨ c = '?'
    · simp [splitPunct, hc]
    · rw [splitPunct, if_neg hc]
      obtain ⟨p, ps, hps⟩ := List.exists_cons_of_ne_nil ih
      rw [hps]
      simp

/-- Parts of the punctuation split contain no sentence punctuation. -/
theorem splitPunct_noPunct :
    ∀ (cs : Str), ∀ part ∈ splitPunct cs, ∀ c ∈ part,
      ¬(c = '.' ∨ c = '!' ∨ c = '?') := by
  intro cs
  induction cs with
  | nil =>
    intro part hpart c hc
    simp [splitPunct] at hpart
    subst hpart
    simp at hc
  | cons a cs ih =>
    intro part hpart c hc
    by_cases ha : a = '.' ∨ a = '!' ∨ a = '?'
    · rw [splitPunct, if_pos ha] at hpart
      rcases List.mem_cons.mp hpart with h | h
      · subst h; simp at hc
      · exact ih part h c hc
    · rw [splitPunct, if_neg ha] at hpart
      obtain ⟨p, ps, hps⟩ := List.exists_cons_of_ne_nil (splitPunct_ne_nil cs)
      rw [hps] at hpart
      rcases List.mem_cons.mp hpart with h | h
      · subst h
        rcases List.mem_cons.mp hc with h2 | h2
        · subst h2; exact ha
        · exact ih p (by rw [hps]; simp) c h2
      · exact ih part (by rw [hps]; simp [h]) c hc

/-- Splitting a punctuation-free part followed by a period peels the part. -/
theorem splitPunct_append (p : Str) (rest : Str)
    (hp : ∀ c ∈ p, ¬(c = '.' ∨ c = '!' ∨ c = '?')) :
    splitPunct (p ++ '.' :: rest) = p :: splitPunct rest := by
  induction p with
  | nil => simp [splitPunct]
  | cons c p2 ih =>
    have hc := hp c (by simp)
    have ih2 := ih (fun d hd => hp d (by simp [hd]))
    rw [List.cons_append, splitPunct, if_neg hc, ih2]

/-- A leading space disappears from the stripped sentence list. -/
theorem saSentences_cons_space (rest : Str) :
    saSentences (' ' :: rest) = saSentences rest := by
  obtain ⟨h, t, hht⟩ := List.exists_cons_of_ne_nil (splitPunct_ne_nil rest)
  have hsp : splitPunct (' ' :: rest) = (' ' :: h) :: t := by
    rw [splitPunct, if_neg (by simp), hht]
  rw [saSentences, saSentences, hsp, hht]
  simp only [List.map_cons]
  rw [pyStrip_cons_space (by decide)]

/-- Re-splitting a ". "-joined list of nonempty, stripped, punctuation-free
parts followed by a final period recovers exactly the parts. -/
theorem saSentences_join :
    ∀ (parts : List Str), parts ≠ [] →
      (∀ x ∈ parts, x ≠ [] ∧ pyStrip x = x ∧
        ∀ c ∈ x, ¬(c = '.' ∨ c = '!' ∨ c = '?')) →
      saSentences (pyJoin (str ". ") parts ++ ['.']) = parts := by
  intro parts
  induction parts with
  | nil => intro h; exact absurd rfl h
  | cons p ps ih =>
    intro _ hall
    obtain ⟨hpne, hpstrip, hpnp⟩ := hall p (by simp)
    cases ps with
    | nil =>
      show saSentences (p ++ '.' :: []) = [p]
      have hsp : splitPunct (p ++ '.' :: []) = [p, []] := by
        rw [splitPunct_append p [] hpnp]; rfl
      have h0 : pyStrip ([] : Str) = [] := rfl
      simp [saSentences, hsp, hpstrip, hpne, h0]
    | cons q t =>
      have hjoin : pyJoin (str ". ") (p :: q :: t) ++ ['.']
          = p ++ '.' :: ' ' :: (pyJoin (str ". ") (q :: t) ++ ['.']) := by
        show (p ++ ['.', ' '] ++ pyJoin (str ". ") (q :: t)) ++ ['.'] = _
        simp
      rw [hjoin]
      have hsp := splitPunct_append p
        (' ' :: (pyJoin (str ". ") (q :: t) ++ ['.'])) hpnp
      have htail : saSentences (' ' :: (pyJoin (str ". ") (q :: t) ++ ['.']))
          = q :: t := by
        rw [saSentences_cons_space]
        exact ih (by simp) (fun x hx => hall x (by simp [hx]))
      show ((splitPunct _).map pyStrip).filter (fun s => s ≠ []) = _
      rw [hsp]
      simp only [List.map_cons, List.filter_cons, hpstrip]
      rw [if_pos (by simpa using hpne)]
      exact congrArg (p :: ·) htail

/-- A joined nonempty-headed list is nonempty. -/
theorem pyJoin_cons_ne_nil (sep : Str) (q : Str) (t : List Str)
    (hq : q ≠ []) : pyJoin sep (q :: t) ≠ [] := by
  cases t with
  | nil => simpa [pyJoin] using hq
  | cons r t2 =>
    show q ++ sep ++ pyJoin sep (r :: t2) ≠ []
    simp [hq]

/-- The final-character test only looks at the nonempty right part. -/
theorem endsWithPunct_append (a b : Str) (hb : b ≠ []) :
    endsWithPunct (a ++ b) = endsWithPunct b := by
  unfold endsWithPunct
  rw [List.getLast?_append_of_ne_nil _ hb]

/-- A ". "-join of nonempty punctuation-free parts does not end with
sentence punctuation. -/
theorem endsWithPunct_join :
    ∀ (parts : List Str), parts ≠ [] →
      (∀ x ∈ parts, x ≠ [] ∧ ∀ c ∈ x, ¬(c = '.' ∨ c = '!' ∨ c = '?')) →
      endsWithPunct (pyJoin (str ". ") parts) = false := by
  intro parts
  induction parts with
  | nil => intro h; exact absurd rfl h
  | cons p ps ih =>
    intro _ hall
    obtain ⟨hpne, hpnp⟩ := hall p (by simp)
    cases ps with
    | nil =>
      show endsWithPunct p = false
      unfold endsWithPunct
      rw [List.getLast?_eq_getLast p hpne]
      have hmem := List.getLast_mem hpne
      have := hpnp _ hmem
      simp only [not_or] at this
      simp [this.1, this.2.1, this.2.2]
    | cons q t =>
      have hqne : pyJoin (str ". ") (q :: t) ≠ [] :=
        pyJoin_cons_ne_nil _ q t (hall q (by simp)).1
      show endsWithPunct (p ++ str ". " ++ pyJoin (str ". ") (q :: t)) = false
      rw [List.append_assoc, endsWithPunct_append _ _ (by simp [hqne]),
        endsWithPunct_append _ _ hqne]
      exact ih (by simp) (fun x hx => hall x (by simp [hx]))

/-- Keys after a score update are the old keys plus the updated sentence. -/
theorem scoreAdd_keys {m : List (Str × ℚ)} {s : Str} {v : ℚ} {x : Str}
    (h : x ∈ (scoreAdd m s v).map Prod.fst) :
    x ∈ m.map Prod.fst ∨ x = s := by
  unfold scoreAdd at h
  split at h
  · left
    rw [List.map_map] at h
    have : ∀ p : Str × ℚ,
        (Prod.fst ∘ fun p => if p.1 = s then (p.1, p.2 + v) else p) p = p.1 := by
      intro p
      by_cases hp : p.1 = s <;> simp [hp]
    rwa [List.map_congr_left (fun p _ => this p)] at h
  · rw [List.map_append] at h
    rcases List.mem_append.mp h with h | h
    · exact Or.inl h
    · right; simpa using h

/-- Keys after scoring the words of one sentence are the old keys plus that
sentence. -/
theorem scoreWords_keys (wf : List (Str × ℚ)) (s : Str) :
    ∀ (ws : List Str) (m : List (Str × ℚ)) (x : Str),
      x ∈ ((ws.foldl (fun acc w =>
        match lookupQ wf w with
        | some v => scoreAdd acc s v
        | none => acc) m)).map Prod.fst →
      x ∈ m.map Prod.fst ∨ x = s := by
  intro ws
  induction ws with
  | nil => intro m x h; exact Or.inl h
  | cons w ws ih =>
    intro m x h
    rw [List.foldl_cons] at h
    cases hl : lookupQ wf w with
    | none =>
      rw [hl] at h
      exact ih m x h
    | some v =>
      rw [hl] at h
      rcases ih _ x h with h2 | h2
      · exact scoreAdd_keys h2
      · exact Or.inr h2

/-- Keys after scoring one sentence are the old keys plus that sentence. -/
theorem saScoreSentence_keys {wf m : List (Str × ℚ)} {s x : Str}
    (h : x ∈ (saScoreSentence wf m s).map Prod.fst) :
    x ∈ m.map Prod.fst ∨ x = s := by
  unfold saScoreSentence at h
  split at h
  · exact Or.inl h
  · exact scoreWords_keys wf s _ m x h

/-- Every key of the sentence-score table is a sentence of the text. -/
theorem saScores_keys (text : Str) :
    ∀ x ∈ (saScores text).map Prod.fst, x ∈ saSentences text := by
  have hgen : ∀ (ss : List Str) (m : List (Str × ℚ)) (x : Str),
      x ∈ ((ss.foldl (saScoreSentence (saWordFreqs text)) m)).map Prod.fst →
      x ∈ m.map Prod.fst ∨ x ∈ ss := by
    intro ss
    induction ss with
    | nil => intro m x h; exact Or.inl h
    | cons s ss ih =>
      intro m x h
      rw [List.foldl_cons] at h
      rcases ih _ x h with h2 | h2
      · rcases saScoreSentence_keys h2 with h3 | h3
        · exact Or.inl h3
        · exact Or.inr (by simp [h3])
      · exact Or.inr (by simp [h2])
  intro x hx
  rcases hgen (saSentences text) [] x hx with h | h
  · simp at h
  · exact h

/-- Members of a descending insertion come from the inserted element or the
list. -/
theorem insertDescQ_mem {α : Type} {x y : α × ℚ} {l : List (α × ℚ)}
    (h : x ∈ insertDescQ y l) : x = y ∨ x ∈ l := by
  induction l with
  | nil => simpa [insertDescQ] using h
  | cons z zs ih =>
    unfold insertDescQ at h
    split at h
    · rcases List.mem_cons.mp h with h2 | h2
      · exact Or.inl h2
      · exact Or.inr h2
    · rcases List.mem_cons.mp h with h2 | h2
      · exact Or.inr (by simp [h2])
      · rcases ih h2 with h3 | h3
        · exact Or.inl h3
        · exact Or.inr (by simp [h3])

/-- Members of the stable descending sort come from the list. -/
theorem sortDescQ_mem {α : Type} {x : α × ℚ} {l : List (α × ℚ)}
    (h : x ∈ sortDescQ l) : x ∈ l := by
  have hgen : ∀ (l : List (α × ℚ)) (acc : List (α × ℚ)),
      x ∈ l.foldl (fun a z => insertDescQ z a) acc → x ∈ acc ∨ x ∈ l := by
    intro l
    induction l with
    | nil => intro acc h; exact Or.inl h
    | cons z zs ih =>
      intro acc h
      rw [List.foldl_cons] at h
      rcases ih _ h with h2 | h2
      · rcases insertDescQ_mem h2 with h3 | h3
        · exact Or.inr (by simp [h3])
        · exact Or.inl h3
      · exact Or.inr (by simp [h2])
  rcases hgen l [] h with h2 | h2
  · simp at h2
  · exact h2

/-- Descending insertion grows the length by one. -/
theorem insertDescQ_length {α : Type} (y : α × ℚ) (l : List (α × ℚ)) :
    (insertDescQ y l).length = l.length + 1 := by
  induction l with
  | nil => rfl
  | cons z zs ih =>
    unfold insertDescQ
    split
    · simp
    · simp [ih]

/-- The stable descending sort preserves length. -/
theorem sortDescQ_length {α : Type} (l : List (α × ℚ)) :
    (sortDescQ l).length = l.length := by
  have hgen : ∀ (l acc : List (α × ℚ)),
      (l.foldl (fun a z => insertDescQ z a) acc).length
        = acc.length + l.length := by
    intro l
    induction l with
    | nil => intro acc; simp
    | cons z zs ih =>
      intro acc
      rw [List.foldl_cons, ih, insertDescQ_length, List.length_cons]
      omega
  simpa using hgen l []

/-- Claim C6 (amended): when the text is non-empty, has at least
2·sentenceCount words, sentenceCount is positive and at least one sentence
received a score (some sentence of at least 4 words contains a word that
survives the punctuation/stop-word filter), the frequency-strategy summary
is non-empty and all of its sentences are sentences of the input text. -/
theorem C6_frequency_summary (text : Str) (count : ℕ) (hcount : 1 ≤ count)
    (htext : text ≠ []) (hwc : count * 2 ≤ (pyWords text).length)
    (hscores : saScores text ≠ []) :
    saSimpleSummarize text count ≠ []
    ∧ ∀ s ∈ saSentences (saSimpleSummarize text count), s ∈ saSentences text := by
  have htop_sub : ∀ s ∈ saTop text count, s ∈ saSentences text := by
    intro s hs
    unfold saTop at hs
    obtain ⟨p, hp, hps⟩ := List.mem_map.mp hs
    have hp2 : p ∈ sortDescQ (saScores text) := List.mem_of_mem_take hp
    have hp3 : p ∈ saScores text := sortDescQ_mem hp2
    apply saScores_keys text
    rw [← hps]
    exact List.mem_map.mpr ⟨p, hp3, rfl⟩
  have hsent_props : ∀ s ∈ saSentences text,
      s ≠ [] ∧ pyStrip s = s ∧ ∀ c ∈ s, ¬(c = '.' ∨ c = '!' ∨ c = '?') := by
    intro s hs
    unfold saSentences at hs
    have hne := (List.mem_filter.mp hs).2
    have hmem := (List.mem_filter.mp hs).1
    obtain ⟨part, hpart, hsp⟩ := List.mem_map.mp hmem
    refine ⟨by simpa using hne, by rw [← hsp]; exact pyStrip_idem part, ?_⟩
    intro c hc
    exact splitPunct_noPunct text part hpart c (mem_pyStrip (hsp ▸ hc))
  have htopne : saTop text count ≠ [] := by
    unfold saTop
    have h1 : 0 < (saScores text).length := List.length_pos.mpr hscores
    have : ((sortDescQ (saScores text)).take count).length
        = min count (saScores text).length := by
      rw [List.length_take, sortDescQ_length]
    intro hcontra
    have := congrArg List.length hcontra
    simp only [List.length_map, List.length_nil] at this
    rw [List.length_take, sortDescQ_length] at this
    omega
  have hall : ∀ x ∈ saTop text count,
      x ≠ [] ∧ pyStrip x = x ∧ ∀ c ∈ x, ¬(c = '.' ∨ c = '!' ∨ c = '?') :=
    fun x hx => hsent_props x (htop_sub x hx)
  have hresplit := saSentences_join (saTop text count) htopne hall
  have hew : endsWithPunct (pyJoin (str ". ") (saTop text count)) = false :=
    endsWithPunct_join _ htopne (fun x hx => ⟨(hall x hx).1, (hall x hx).2.2⟩)
  have hres : saSimpleSummarize text count
      = pyJoin (str ". ") (saTop text count) ++ ['.'] := by
    unfold saSimpleSummarize
    rw [if_neg (by push_neg; exact ⟨htext, by omega⟩), if_neg (by simpa using hscores)]
    simp only [hew]
    rfl
  constructor
  · rw [hres]
    simp
  · intro s hs
    rw [hres, hresplit] at hs
    exact htop_sub s hs

/-- Witness for `C6_frequency_summary` on a concrete two-sentence text. -/
theorem C6_frequency_summary_witness :
    saSimpleSummarize (str "Cats chase mice quickly. Dogs bark loudly at cats.") 1 ≠ []
    ∧ ∀ s ∈ saSentences (saSimpleSummarize
        (str "Cats chase mice quickly. Dogs bark loudly at cats.") 1),
        s ∈ saSentences (str "Cats chase mice quickly. Dogs bark loudly at cats.") :=
  C6_frequency_summary (str "Cats chase mice quickly. Dogs bark loudly at cats.") 1
    (by decide) (by decide) (by decide) (by decide)

/-- Claim C6 counterexample: the text consisting of 21 copies of the
five-word stop-word sentence "the and with that this. " contains at least
sentenceCount = 1 sentences of at least 4 words, yet every word is a stop
word, so no sentence scores: the summarizer returns the 500-character
truncation plus "...", whose final fragment "the and with that th" is not a
sentence of the input — the returned summary's sentences are not a subset
of the input's sentences. -/
theorem C6_counterexample :
    1 ≤ ((saSentences textC6).filter (fun s => 4 ≤ (pyWords s).length)).length
    ∧ saSimpleSummarize textC6 1 = textC6.take 500 ++ str "..."
    ∧ str "the and with that th" ∈ saSentences (saSimpleSummarize textC6 1)
    ∧ str "the and with that th" ∉ saSentences textC6 := by
  refine ⟨by decide, by decide, by decide, by decide⟩

/-- Unfolding one "w w. " sentence group at the front of a word list. -/
theorem pyWords_unit_prefix (rest : Str) :
    pyWords (str "w w. " ++ rest) = [['w'], str "w."] ++ pyWords rest := by
  have h : str "w w. " ++ rest = str "w w." ++ ' ' :: rest := rfl
  rw [h, show pyWords (str "w w." ++ ' ' :: rest)
      = wordsAux [] (str "w w." ++ ' ' :: rest) from rfl,
    wordsAux_append_space ' ' (by decide)]
  rfl

/-- One step of the `textN` family. -/
theorem textN_succ (n : ℕ) : textN (n + 1) = str "w w. " ++ textN n := by
  unfold textN
  rw [List.replicate_succ, List.flatten_cons, List.append_assoc]

/-- Word count of the `textN` family. -/
theorem pyWords_textN_length (n : ℕ) :
    (pyWords (textN n)).length = 2 * n + 2 := by
  induction n with
  | zero => decide
  | succ n ih =>
    rw [textN_succ, pyWords_unit_prefix, List.length_append, ih]
    simp
    omega

/-- A string without double newlines stays whole under the paragraph
split. -/
theorem split2NL_no_newline (cs : Str) (h : '\n' ∉ cs) :
    split2NL cs = [cs] := by
  induction cs using split2NL.induct with
  | case1 => rfl
  | case2 rest ih => simp at h
  | case3 c rest hh hsplit ih => exact absurd hsplit (split2NL_ne_nil rest)
  | case4 c rest hh p ps hsplit ih =>
    have hrest : '\n' ∉ rest := fun hr => h (by simp [hr])
    rw [split2NL.eq_3 c rest hh, hsplit]
    have := ih hrest
    rw [hsplit] at this
    obtain ⟨h1, h2⟩ := List.cons_eq_cons.mp this
    subst h1
    subst h2
    rfl

/-- Characters of the `textN` family. -/
theorem mem_textN (n : ℕ) : ∀ c ∈ textN n, c = 'w' ∨ c = ' ' ∨ c = '.' := by
  induction n with
  | zero => decide
  | succ n ih =>
    intro c hc
    rw [textN_succ] at hc
    rcases List.mem_append.mp hc with h | h
    · have hall : ∀ d ∈ str "w w. ", d = 'w' ∨ d = ' ' ∨ d = '.' := by decide
      exact hall c h
    · exact ih c h

/-- A non-whitespace character is never a sentence boundary. -/
theorem splitHereOSS_not_space (p3 p2 p1 : Option Char) (c : Char)
    (h : pyIsSpace c = false) : splitHereOSS p3 p2 p1 c = false := by
  simp [splitHereOSS, h]

/-- The scanner splits one "w w. " group off the front, from any window
state. -/
theorem ossSentSplitAux_unit (p3 p2 p1 : Option Char) (cur : Str) (rest : Str) :
    ossSentSplitAux p3 p2 p1 cur (str "w w. " ++ rest)
      = (cur.reverse ++ str "w w.")
        :: ossSentSplitAux (some 'w') (some '.') (some ' ') [] rest := by
  show ossSentSplitAux p3 p2 p1 cur ('w' :: ' ' :: 'w' :: '.' :: ' ' :: rest) = _
  rw [ossSentSplitAux, if_neg (by rw [splitHereOSS_not_space _ _ _ _ (by decide)]; simp)]
  rw [ossSentSplitAux, if_neg (by simp [splitHereOSS])]
  rw [ossSentSplitAux, if_neg (by rw [splitHereOSS_not_space _ _ _ _ (by decide)]; simp)]
  rw [ossSentSplitAux, if_neg (by rw [splitHereOSS_not_space _ _ _ _ (by decide)]; simp)]
  rw [ossSentSplitAux, if_pos (by decide)]
  simp [str]

/-- The scanner turns `textN n` into n+1 copies of "w w.", from any window
state. -/
theorem ossSentSplitAux_textN :
    ∀ (n : ℕ) (p3 p2 p1 : Option Char),
      ossSentSplitAux p3 p2 p1 [] (textN n)
        = List.replicate (n + 1) (str "w w.") := by
  intro n
  induction n with
  | zero =>
    intro p3 p2 p1
    show ossSentSplitAux p3 p2 p1 [] ('w' :: ' ' :: 'w' :: '.' :: []) = _
    rw [ossSentSplitAux, if_neg (by rw [splitHereOSS_not_space _ _ _ _ (by decide)]; simp)]
    rw [ossSentSplitAux, if_neg (by simp [splitHereOSS])]
    rw [ossSentSplitAux, if_neg (by rw [splitHereOSS_not_space _ _ _ _ (by decide)]; simp)]
    rw [ossSentSplitAux, if_neg (by rw [splitHereOSS_not_space _ _ _ _ (by decide)]; simp)]
    rfl
  | succ n ih =>
    intro p3 p2 p1
    rw [textN_succ, ossSentSplitAux_unit, ih]
    rfl

/-- Sentence split of the long input. -/
theorem ossSentSplit_textN (n : ℕ) :
    ossSentSplit (textN n) = List.replicate (n + 1) (str "w w.") :=
  ossSentSplitAux_textN n none none none

/-- Greedy packing of 2-word units with bound 4000: from a partially filled
chunk of j units, the remaining k = 2001 - j units fill the first chunk to
2000 units and leave a single-unit second chunk. -/
theorem combineAux_unitC2 :
    ∀ (k j : ℕ), 1 ≤ j → j ≤ 2000 → j + k = 2001 →
      combineAux 4000 (List.replicate j unitC2) (2 * j)
        (List.replicate k unitC2)
        = [List.replicate 2000 unitC2, [unitC2]] := by
  intro k
  induction k with
  | zero => intro j h1 h2 h3; omega
  | succ k ih =>
    intro j h1 h2 h3
    rw [List.replicate_succ, combineAux]
    have husz : (pyWords unitC2).length = 2 := by decide
    rw [husz]
    by_cases hj : j ≤ 1999
    · rw [if_pos (by omega)]
      have hrep : unitC2 :: List.replicate j unitC2
          = List.replicate (j + 1) unitC2 := by
        rw [List.replicate_succ]
      rw [hrep, show 2 * j + 2 = 2 * (j + 1) by omega]
      exact ih (j + 1) (by omega) (by omega) (by omega)
    · have hj2000 : j = 2000 := by omega
      have hk0 : k = 0 := by omega
      subst hj2000
      subst hk0
      rw [if_neg (by omega),
        if_neg (by simp [List.replicate_eq_nil_iff]),
        List.reverse_replicate]
      rfl

/-- The chunker splits `textC2` into a 4000-word chunk of 2000 sentences
and a trailing 2-word chunk. -/
theorem split_into_chunks_textC2 :
    split_into_chunks textC2 4000 = [chunk1C2, unitC2] := by
  have hnl : '\n' ∉ textC2 := by
    intro h
    rcases mem_textN 2000 '\n' h with h | h | h <;> simp at h
  have hunits : split_units textC2 = List.replicate 2001 unitC2 := by
    unfold split_units
    rw [split2NL_no_newline textC2 hnl]
    rw [if_pos (by simp)]
    exact ossSentSplit_textN 2000
  unfold split_into_chunks combine_units
  rw [hunits]
  have hstep : combineAux 4000 [] 0 (List.replicate 2001 unitC2)
      = [List.replicate 2000 unitC2, [unitC2]] := by
    rw [show (2001 : ℕ) = 2000 + 1 from rfl, List.replicate_succ, combineAux]
    have husz : (pyWords unitC2).length = 2 := by decide
    rw [husz, if_pos (by omega)]
    have hthis := combineAux_unitC2 2000 1 (by omega) (by omega) (by omega)
    rw [List.replicate_one, show 2 * 1 = 0 + 2 from rfl] at hthis
    exact hthis
  rw [hstep]
  rfl

/-- Word count of the first chunk. -/
theorem chunk1C2_wordcount : (pyWords chunk1C2).length = 4000 := by
  unfold chunk1C2
  rw [pyWords_join_wsum]
  unfold wsum
  rw [List.map_replicate]
  simp [List.sum_replicate, show (pyWords unitC2).length = 2 by decide]

/-- A chunk that is empty or under 100 words passes through `summarize`
unchanged, with no completion call. -/
theorem ossSummarize_small_passthrough (fuel : ℕ)
    (oracle : ℕ → Except Unit Str) (k : ℕ) (c : Str) (maxLen : ℕ)
    (hsmall : c = [] ∨ (pyWords c).length < 100) :
    ossSummarize (fuel + 1) oracle k c maxLen = some (c, k) := by
  rw [ossSummarize, if_pos hsmall]

/-- A chunk of 100 to 4000 words summarizes on the first attempt when the
oracle answers with a long stripped string, consuming one call. -/
theorem ossSummarize_first_attempt (fuel : ℕ)
    (oracle : ℕ → Except Unit Str) (k : ℕ) (c : Str) (maxLen : ℕ) (S : Str)
    (hsmall : ¬(c = [] ∨ (pyWords c).length < 100))
    (hwcle : (pyWords c).length ≤ 4000)
    (hok : oracle k = .ok S) (hstrip : pyStrip S = S) (hSlen : 50 < S.length) :
    ossSummarize (fuel + 1) oracle k c maxLen = some (S, k + 1) := by
  rw [ossSummarize, if_neg hsmall, if_neg (by omega)]
  have hatt : ossAttempts oracle 3 k = (some S, k + 1) := by
    rw [show (3 : ℕ) = 2 + 1 from rfl, ossAttempts, hok]
    simp only [hstrip, if_pos hSlen]
  rw [hatt]

/-- Chunk loop under an always-successful oracle: every big chunk
summarizes to `S` with one call, every small chunk passes through with no
call. -/
theorem ossChunkFold_ok (oracle : ℕ → Except Unit Str) (S : Str)
    (maxLen fuel : ℕ) (hstrip : pyStrip S = S) (hSlen : 50 < S.length) :
    ∀ (chunks : List Str) (k : ℕ),
      (∀ c ∈ chunks, (pyWords c).length ≤ 4000) →
      (∀ i, i < ossBigCount chunks → oracle (k + i) = .ok S) →
      ossChunkFold (fun k2 c => ossSummarize (fuel + 1) oracle k2 c maxLen) k chunks
        = some (chunks.map (ossChunkValue S), k + ossBigCount chunks) := by
  intro chunks
  induction chunks with
  | nil =>
    intro k _ _
    simp [ossChunkFold, ossBigCount]
  | cons c cs ih =>
    intro k hwc hok
    by_cases hc : c = [] ∨ (pyWords c).length < 100
    · have hbc : ossBigCount (c :: cs) = ossBigCount cs := by
        unfold ossBigCount
        rw [List.countP_cons]
        simp [hc]
      have h1 := ossSummarize_small_passthrough fuel oracle k c maxLen hc
      have h2 := ih k (fun d hd => hwc d (by simp [hd]))
        (fun i hi => hok i (by rw [hbc]; exact hi))
      rw [ossChunkFold]
      simp only [h1, h2]
      have hv : ossChunkValue S c = c := by
        unfold ossChunkValue
        rw [if_pos hc]
      rw [List.map_cons, hv, hbc]
    · have hbc : ossBigCount (c :: cs) = ossBigCount cs + 1 := by
        unfold ossBigCount
        rw [List.countP_cons]
        simp [hc]
      have hok0 : oracle k = .ok S := by
        have := hok 0 (by omega)
        simpa using this
      have h1 := ossSummarize_first_attempt fuel oracle k c maxLen S hc
        (hwc c (by simp)) hok0 hstrip hSlen
      have h2 := ih (k + 1) (fun d hd => hwc d (by simp [hd]))
        (fun i hi => by
          have := hok (i + 1) (by omega)
          rw [show k + 1 + i = k + (i + 1) by omega]
          exact this)
      rw [ossChunkFold]
      simp only [h1, h2]
      have hv : ossChunkValue S c = S := by
        unfold ossChunkValue
        rw [if_neg hc]
      rw [List.map_cons, hv, hbc]
      rw [show k + 1 + ossBigCount cs = k + (ossBigCount cs + 1) by omega]

/-- Long-text path under an always-successful oracle: the chunk summaries
are `ossScenarioSums`, and the final synthesis request is issued only when
the labeled concatenation exceeds 1.5 times the target length, in which
case its answer `S` is returned; otherwise the labeled concatenation itself
is returned with no further call. -/
theorem ossSummarize_success (fuel k maxLen : ℕ)
    (oracle : ℕ → Except Unit Str) (S text : Str)
    (hok : ∀ j, oracle j = .ok S) (hstrip : pyStrip S = S)
    (hSlen : 50 < S.length)
    (hchunks : ∀ c ∈ split_into_chunks text 4000, (pyWords c).length ≤ 4000)
    (hbig : 4000 < (pyWords text).length) :
    ossSummarize (fuel + 2) oracle k text maxLen
      = some
          ((if 3 * maxLen < 2 * (pyWords (ossScenarioCombined S text)).length
            then S else ossScenarioCombined S text),
           k + ossBigCount (split_into_chunks text 4000)
             + (if 3 * maxLen < 2 * (pyWords (ossScenarioCombined S text)).length
                then 1 else 0)) := by
  have htne : ¬(text = [] ∨ (pyWords text).length < 100) := by
    push_neg
    constructor
    · intro h
      rw [h] at hbig
      simp [pyWords, wordsAux] at hbig
    · omega
  rw [show fuel + 2 = (fuel + 1) + 1 from rfl, ossSummarize,
    if_neg htne, if_pos hbig]
  unfold ossSummarizeLongG
  dsimp only
  rw [ossChunkFold_ok oracle S (maxLen / 2) fuel hstrip hSlen
    (split_into_chunks text 4000) k hchunks (fun i _ => hok (k + i))]
  show (let combined := ossCombine (ossScenarioSums S text)
    if 3 * maxLen < 2 * (pyWords combined).length then
      match oracle (k + ossBigCount (split_into_chunks text 4000)) with
      | .ok s => some (pyStrip s, k + ossBigCount (split_into_chunks text 4000) + 1)
      | .error _ => some (pyJoin [' '] (ossScenarioSums S text),
          k + ossBigCount (split_into_chunks text 4000) + 1)
    else some (combined, k + ossBigCount (split_into_chunks text 4000))) = _
  simp only [hok, hstrip]
  by_cases hneed : 3 * maxLen < 2 * (pyWords (ossScenarioCombined S text)).length
  · rw [if_pos (by exact hneed), if_pos hneed, if_pos hneed]
  · rw [if_neg (by exact hneed), if_neg hneed, if_neg hneed]
    rfl

/-- Long-text path when every chunk call succeeds but the final synthesis
request raises: the space-joined chunk summaries are returned verbatim. -/
theorem ossSummarize_final_fails (fuel k maxLen : ℕ)
    (oracle : ℕ → Except Unit Str) (S text : Str)
    (hok : ∀ j, oracle j = .ok S) (hstrip : pyStrip S = S)
    (hSlen : 50 < S.length)
    (hchunks : ∀ c ∈ split_into_chunks text 4000, (pyWords c).length ≤ 4000)
    (hbig : 4000 < (pyWords text).length) :
    ossSummarize (fuel + 2)
        (oracleFailFrom oracle (k + ossBigCount (split_into_chunks text 4000)))
        k text maxLen
      = some
          ((if 3 * maxLen < 2 * (pyWords (ossScenarioCombined S text)).length
            then pyJoin [' '] (ossScenarioSums S text)
            else ossScenarioCombined S text),
           k + ossBigCount (split_into_chunks text 4000)
             + (if 3 * maxLen < 2 * (pyWords (ossScenarioCombined S text)).length
                then 1 else 0)) := by
  have htne : ¬(text = [] ∨ (pyWords text).length < 100) := by
    push_neg
    constructor
    · intro h
      rw [h] at hbig
      simp [pyWords, wordsAux] at hbig
    · omega
  rw [show fuel + 2 = (fuel + 1) + 1 from rfl, ossSummarize,
    if_neg htne, if_pos hbig]
  unfold ossSummarizeLongG
  dsimp only
  rw [ossChunkFold_ok (oracleFailFrom oracle
      (k + ossBigCount (split_into_chunks text 4000))) S (maxLen / 2) fuel
    hstrip hSlen (split_into_chunks text 4000) k hchunks
    (fun i hi => by
      unfold oracleFailFrom
      rw [if_pos (by omega)]
      exact hok (k + i))]
  have hfinal : oracleFailFrom oracle
      (k + ossBigCount (split_into_chunks text 4000))
      (k + ossBigCount (split_into_chunks text 4000)) = .error () := by
    unfold oracleFailFrom
    rw [if_neg (by omega)]
  show (let combined := ossCombine (ossScenarioSums S text)
    if 3 * maxLen < 2 * (pyWords combined).length then
      match oracleFailFrom oracle
          (k + ossBigCount (split_into_chunks text 4000))
          (k + ossBigCount (split_into_chunks text 4000)) with
      | .ok s => some (pyStrip s, k + ossBigCount (split_into_chunks text 4000) + 1)
      | .error _ => some (pyJoin [' '] (ossScenarioSums S text),
          k + ossBigCount (split_into_chunks text 4000) + 1)
    else some (combined, k + ossBigCount (split_into_chunks text 4000))) = _
  simp only [hfinal]
  by_cases hneed : 3 * maxLen < 2 * (pyWords (ossScenarioCombined S text)).length
  · rw [if_pos (by exact hneed), if_pos hneed, if_pos hneed]
  · rw [if_neg (by exact hneed), if_neg hneed, if_neg hneed]
    rfl

/-- The 4002-word input exceeds the single-pass threshold. -/
theorem textC2_big : 4000 < (pyWords textC2).length := by
  have h : (pyWords textC2).length = 4002 := by
    unfold textC2
    rw [pyWords_textN_length]
  omega

/-- The first chunk is neither empty nor under 100 words. -/
theorem chunk1C2_reaches_api :
    ¬(chunk1C2 = [] ∨ (pyWords chunk1C2).length < 100) := by
  push_neg
  constructor
  · intro h
    have := chunk1C2_wordcount
    rw [h] at this
    simp [pyWords, wordsAux] at this
  · rw [chunk1C2_wordcount]
    omega

/-- Both chunks of `textC2` fit the 4000-word bound. -/
theorem chunksC2_le :
    ∀ c ∈ split_into_chunks textC2 4000, (pyWords c).length ≤ 4000 := by
  rw [split_into_chunks_textC2]
  intro c hc
  rcases List.mem_cons.mp hc with h | h
  · rw [h, chunk1C2_wordcount]
  · have h2 : c = unitC2 := by simpa using h
    rw [h2]
    decide

/-- Chunk summaries of `textC2` under the success oracle. -/
theorem scenarioSumsC2 : ossScenarioSums sC2 textC2 = [sC2, unitC2] := by
  unfold ossScenarioSums
  rw [split_into_chunks_textC2, List.map_cons, List.map_cons, List.map_nil]
  rw [show ossChunkValue sC2 chunk1C2 = sC2 from by
    unfold ossChunkValue; rw [if_neg chunk1C2_reaches_api]]
  rw [show ossChunkValue sC2 unitC2 = unitC2 from by decide]

/-- Labeled concatenation of the `textC2` chunk summaries. -/
theorem scenarioCombinedC2 : ossScenarioCombined sC2 textC2 = combinedC2 := by
  unfold ossScenarioCombined
  rw [scenarioSumsC2]
  decide

/-- Exactly one chunk of `textC2` reaches the completion API. -/
theorem bigCountC2 : ossBigCount (split_into_chunks textC2 4000) = 1 := by
  rw [split_into_chunks_textC2]
  unfold ossBigCount
  rw [List.countP_cons, List.countP_cons, List.countP_nil]
  have h1 : (!(chunk1C2 = [] ∨ (pyWords chunk1C2).length < 100 : Bool)) = true := by
    rw [decide_eq_false chunk1C2_reaches_api]
    rfl
  have h2 : (!(unitC2 = [] ∨ (pyWords unitC2).length < 100 : Bool)) = false := by
    decide
  rw [h1, h2]
  simp

/-- Claim C2 (amended): for a text over 4000 words, `summarize_long_text`
splits it into chunks and summarizes each (chunks under 100 words pass
through; with the oracle answering `S`, the others summarize to `S`),
labels the summaries "Part N:" and joins with blank lines; the final
synthesis completion request is issued only when that labeled concatenation
exceeds 1.5 times the target word length (returning its answer), otherwise
the labeled concatenation itself is returned with no further request; if
the final request is issued and raises, the space-joined chunk summaries
are returned verbatim. -/
theorem C2_long_text_summarization (fuel k maxLen : ℕ)
    (oracle : ℕ → Except Unit Str) (S text : Str)
    (hok : ∀ j, oracle j = .ok S) (hstrip : pyStrip S = S)
    (hSlen : 50 < S.length)
    (hchunks : ∀ c ∈ split_into_chunks text 4000, (pyWords c).length ≤ 4000)
    (hbig : 4000 < (pyWords text).length) :
    ossSummarize (fuel + 2) oracle k text maxLen
      = some
          ((if 3 * maxLen < 2 * (pyWords (ossScenarioCombined S text)).length
            then S else ossScenarioCombined S text),
           k + ossBigCount (split_into_chunks text 4000)
             + (if 3 * maxLen < 2 * (pyWords (ossScenarioCombined S text)).length
                then 1 else 0))
    ∧ ossSummarize (fuel + 2)
        (oracleFailFrom oracle (k + ossBigCount (split_into_chunks text 4000)))
        k text maxLen
      = some
          ((if 3 * maxLen < 2 * (pyWords (ossScenarioCombined S text)).length
            then pyJoin [' '] (ossScenarioSums S text)
            else ossScenarioCombined S text),
           k + ossBigCount (split_into_chunks text 4000)
             + (if 3 * maxLen < 2 * (pyWords (ossScenarioCombined S text)).length
                then 1 else 0)) :=
  ⟨ossSummarize_success fuel k maxLen oracle S text hok hstrip hSlen hchunks hbig,
   ossSummarize_final_fails fuel k maxLen oracle S text hok hstrip hSlen hchunks hbig⟩

/-- Claim C2 counterexample: on the 4002-word `textC2` with every
completion call succeeding, `summarize` returns the "Part N:"-labeled
concatenation after a single completion call — no final synthesis request
is issued (the labeled concatenation is 16 words, under 1.5×300) — and the
result is neither a synthesized final summary (which would be `sC2`) nor
the space-joined chunk summaries, contradicting the claim that one more
completion request is always issued for over-threshold texts. -/
theorem C2_counterexample :
    4000 < (pyWords textC2).length
    ∧ ossSummarize 2 oracleC2 0 textC2 300 = some (combinedC2, 1)
    ∧ combinedC2 ≠ sC2
    ∧ combinedC2 ≠ sC2 ++ ' ' :: unitC2 := by
  have hmain := ossSummarize_success 0 0 300 oracleC2 sC2 textC2
    (fun j => rfl) (by decide) (by decide) chunksC2_le textC2_big
  rw [scenarioCombinedC2, bigCountC2] at hmain
  have hwcomb : (pyWords combinedC2).length = 16 := by decide
  rw [hwcomb, if_neg (by omega), if_neg (by omega)] at hmain
  exact ⟨textC2_big, hmain, by decide, by decide⟩

/-- Witness for `C2_long_text_summarization` on the concrete long input. -/
theorem C2_long_text_summarization_witness :
    (ossSummarize (0 + 2) oracleC2 0 textC2 300
      = some
          ((if 3 * 300 < 2 * (pyWords (ossScenarioCombined sC2 textC2)).length
            then sC2 else ossScenarioCombined sC2 textC2),
           0 + ossBigCount (split_into_chunks textC2 4000)
             + (if 3 * 300 < 2 * (pyWords (ossScenarioCombined sC2 textC2)).length
                then 1 else 0)))
    ∧ ossSummarize (0 + 2)
        (oracleFailFrom oracleC2 (0 + ossBigCount (split_into_chunks textC2 4000)))
        0 textC2 300
      = some
          ((if 3 * 300 < 2 * (pyWords (ossScenarioCombined sC2 textC2)).length
            then pyJoin [' '] (ossScenarioSums sC2 textC2)
            else ossScenarioCombined sC2 textC2),
           0 + ossBigCount (split_into_chunks textC2 4000)
             + (if 3 * 300 < 2 * (pyWords (ossScenarioCombined sC2 textC2)).length
                then 1 else 0)) :=
  C2_long_text_summarization 0 0 300 oracleC2 sC2 textC2 (fun j => rfl)
    (by decide) (by decide) chunksC2_le textC2_big
